import Mathlib

/-!
Shallow embedding of the demogine renderer core: the scene-graph transform
cache (src/scene_graph/transform.rs, scene.rs), the math layer used by
frustum culling (src/math/plane.rs, bounds.rs, frustum.rs), the per-frame
drawable extraction (src/rendering/instancing/drawable_manager.rs,
drawable.rs, drawable_storage_buffer.rs) and the compute dispatch sequence
(src/rendering/instancing/draw_command_generator.rs).

`f32` scalars are modelled exactly over `ℚ`: every claim under study is
about the branch and data-flow structure of the code (comparisons of the
very quantities the code computes), not about rounding behaviour.
-/

namespace Demogine

/-- glam `Vec3` over exact scalars. -/
structure Vec3 where
  x : ℚ
  y : ℚ
  z : ℚ
deriving DecidableEq

namespace Vec3

def zero : Vec3 := ⟨0, 0, 0⟩

/-- glam `Vec3::splat`. -/
def splat (s : ℚ) : Vec3 := ⟨s, s, s⟩

/-- glam `Vec3::dot`. -/
def dot (a b : Vec3) : ℚ := a.x * b.x + a.y * b.y + a.z * b.z

def add (a b : Vec3) : Vec3 := ⟨a.x + b.x, a.y + b.y, a.z + b.z⟩

def smul (a : Vec3) (s : ℚ) : Vec3 := ⟨a.x * s, a.y * s, a.z * s⟩

def neg (a : Vec3) : Vec3 := ⟨-a.x, -a.y, -a.z⟩

def sub (a b : Vec3) : Vec3 := ⟨a.x - b.x, a.y - b.y, a.z - b.z⟩

/-- glam `Vec3::cross`. -/
def cross (a b : Vec3) : Vec3 :=
  ⟨a.y * b.z - a.z * b.y, a.z * b.x - a.x * b.z, a.x * b.y - a.y * b.x⟩

end Vec3

/-- glam `Vec4` over exact scalars. -/
structure Vec4 where
  x : ℚ
  y : ℚ
  z : ℚ
  w : ℚ
deriving DecidableEq

namespace Vec4

def add (a b : Vec4) : Vec4 := ⟨a.x + b.x, a.y + b.y, a.z + b.z, a.w + b.w⟩

def smul (a : Vec4) (s : ℚ) : Vec4 := ⟨a.x * s, a.y * s, a.z * s, a.w * s⟩

/-- glam `Vec4Swizzles::xyz`. -/
def xyz (a : Vec4) : Vec3 := ⟨a.x, a.y, a.z⟩

end Vec4

/-- glam `Quat` over exact scalars (x, y, z imaginary parts, w real part). -/
structure Quat where
  x : ℚ
  y : ℚ
  z : ℚ
  w : ℚ
deriving DecidableEq

/-- glam `Quat::IDENTITY`. -/
def Quat.identity : Quat := ⟨0, 0, 0, 1⟩

/-- glam `Mat4`: column-major, the four columns are `x_axis .. w_axis`. -/
structure Mat4 where
  xAxis : Vec4
  yAxis : Vec4
  zAxis : Vec4
  wAxis : Vec4
deriving DecidableEq

namespace Mat4

/-- glam `Mat4::IDENTITY`. -/
def identity : Mat4 :=
  ⟨⟨1, 0, 0, 0⟩, ⟨0, 1, 0, 0⟩, ⟨0, 0, 1, 0⟩, ⟨0, 0, 0, 1⟩⟩

/-- glam `Mat4::mul_vec4`: `x_axis * v.x + y_axis * v.y + z_axis * v.z + w_axis * v.w`. -/
def mulVec4 (m : Mat4) (v : Vec4) : Vec4 :=
  (((m.xAxis.smul v.x).add (m.yAxis.smul v.y)).add (m.zAxis.smul v.z)).add
    (m.wAxis.smul v.w)

/-- glam `Mat4::mul` (i.e. `a * b`): each column of `b` transformed by `a`. -/
def mul (a b : Mat4) : Mat4 :=
  ⟨a.mulVec4 b.xAxis, a.mulVec4 b.yAxis, a.mulVec4 b.zAxis, a.mulVec4 b.wAxis⟩

/-- glam `Mat4::transform_point3`: affine transform of a point
(`x_axis * p.x + y_axis * p.y + z_axis * p.z + w_axis`, truncated to xyz). -/
def transform_point3 (m : Mat4) (p : Vec3) : Vec3 :=
  ((((m.xAxis.smul p.x).add (m.yAxis.smul p.y)).add (m.zAxis.smul p.z)).add
    m.wAxis).xyz

/-- glam `Mat4::from_scale_rotation_translation`: the three rotation axes
derived from the quaternion (the standard quaternion-to-matrix formulas),
scaled componentwise by `scale`, with `translation` in the fourth column. -/
def from_scale_rotation_translation (scale : Vec3) (rotation : Quat)
    (translation : Vec3) : Mat4 :=
  let x := rotation.x
  let y := rotation.y
  let z := rotation.z
  let w := rotation.w
  let x2 := x + x
  let y2 := y + y
  let z2 := z + z
  let xx := x * x2
  let xy := x * y2
  let xz := x * z2
  let yy := y * y2
  let yz := y * z2
  let zz := z * z2
  let wx := w * x2
  let wy := w * y2
  let wz := w * z2
  let rotXAxis : Vec4 := ⟨1 - (yy + zz), xy + wz, xz - wy, 0⟩
  let rotYAxis : Vec4 := ⟨xy - wz, 1 - (xx + zz), yz + wx, 0⟩
  let rotZAxis : Vec4 := ⟨xz + wy, yz - wx, 1 - (xx + yy), 0⟩
  ⟨rotXAxis.smul scale.x, rotYAxis.smul scale.y, rotZAxis.smul scale.z,
    ⟨translation.x, translation.y, translation.z, 1⟩⟩

/-- glam `Mat4::transpose`. -/
def transpose (m : Mat4) : Mat4 :=
  ⟨⟨m.xAxis.x, m.yAxis.x, m.zAxis.x, m.wAxis.x⟩,
    ⟨m.xAxis.y, m.yAxis.y, m.zAxis.y, m.wAxis.y⟩,
    ⟨m.xAxis.z, m.yAxis.z, m.zAxis.z, m.wAxis.z⟩,
    ⟨m.xAxis.w, m.yAxis.w, m.zAxis.w, m.wAxis.w⟩⟩

/-- Determinant of a 3x3 matrix given by rows, used for the cofactors of
`Mat4.inverse`. -/
def det3 (a b c d e f g h i : ℚ) : ℚ :=
  a * (e * i - f * h) - b * (d * i - f * g) + c * (d * h - e * g)

/-- Entry of `m` at row `r`, column `c` (column-major storage). -/
def entry (m : Mat4) (r c : Fin 4) : ℚ :=
  let col : Vec4 :=
    match c with
    | 0 => m.xAxis
    | 1 => m.yAxis
    | 2 => m.zAxis
    | 3 => m.wAxis
  match r with
  | 0 => col.x
  | 1 => col.y
  | 2 => col.z
  | 3 => col.w

/-- 3x3 minor of `m` obtained by deleting row `r` and column `c`. -/
def minor (m : Mat4) (r c : Fin 4) : ℚ :=
  let rows := (List.finRange 4).filter (fun i => i ≠ r)
  let cols := (List.finRange 4).filter (fun j => j ≠ c)
  match rows, cols with
  | [r0, r1, r2], [c0, c1, c2] =>
    det3 (m.entry r0 c0) (m.entry r0 c1) (m.entry r0 c2)
      (m.entry r1 c0) (m.entry r1 c1) (m.entry r1 c2)
      (m.entry r2 c0) (m.entry r2 c1) (m.entry r2 c2)
  | _, _ => 0

def det (m : Mat4) : ℚ :=
  m.entry 0 0 * m.minor 0 0 - m.entry 0 1 * m.minor 0 1 +
    m.entry 0 2 * m.minor 0 2 - m.entry 0 3 * m.minor 0 3

/-- Cofactor-based inverse, as glam computes it (adjugate divided by the
determinant; glam performs the division unconditionally, so a singular
matrix yields meaningless entries — over `ℚ` division by zero gives 0). -/
def inverse (m : Mat4) : Mat4 :=
  let d := m.det
  let cof (r c : Fin 4) : ℚ :=
    (if (r.val + c.val) % 2 = 0 then m.minor r c else -(m.minor r c)) / d
  -- adjugate: entry (r, c) of the inverse is the cofactor of (c, r)
  ⟨⟨cof 0 0, cof 1 0, cof 2 0, cof 3 0⟩,
    ⟨cof 0 1, cof 1 1, cof 2 1, cof 3 1⟩,
    ⟨cof 0 2, cof 1 2, cof 2 2, cof 3 2⟩,
    ⟨cof 0 3, cof 1 3, cof 2 3, cof 3 3⟩⟩

end Mat4

/-- src/math/plane.rs `Plane`. -/
structure Plane where
  normal : Vec3
  distance : ℚ
deriving DecidableEq

/-- src/math/plane.rs `Plane::signed_distance_to_point`. -/
def Plane.signed_distance_to_point (p : Plane) (point : Vec3) : ℚ :=
  p.normal.dot point + p.distance

/-- src/math/frustum.rs `Frustum`. The source stores exactly six planes
(`[Plane; 6]`, order left/right/bottom/top/near/far); a list keeps the
embedding simple, and every theorem below holds for any number of planes. -/
structure Frustum where
  planes : List Plane
deriving DecidableEq

/-- src/math/bounds.rs `AABB`. -/
structure AABB where
  min : Vec3
  max : Vec3
deriving DecidableEq

namespace AABB

/-- src/math/bounds.rs `AABB::corners`: the eight box corners, in source
order. -/
def corners (b : AABB) : List Vec3 :=
  [⟨b.min.x, b.min.y, b.min.z⟩,
    ⟨b.max.x, b.min.y, b.min.z⟩,
    ⟨b.min.x, b.max.y, b.min.z⟩,
    ⟨b.max.x, b.max.y, b.min.z⟩,
    ⟨b.min.x, b.min.y, b.max.z⟩,
    ⟨b.max.x, b.min.y, b.max.z⟩,
    ⟨b.min.x, b.max.y, b.max.z⟩,
    ⟨b.max.x, b.max.y, b.max.z⟩]

/-- src/math/bounds.rs `AABB::intersects_frustum_transformed`: transform the
eight corners by `transform`; for each plane, if every corner has negative
signed distance (`outside` stays true) report no intersection; otherwise
report intersection. -/
def intersects_frustum_transformed (b : AABB) (frustum : Frustum)
    (transform : Mat4) : Bool :=
  let corners := b.corners.map (fun corner => transform.transform_point3 corner)
  !(frustum.planes.any (fun plane =>
    corners.all (fun corner => plane.signed_distance_to_point corner < 0)))

end AABB

/-! ## Scene graph: src/scene_graph/transform.rs -/

/-- src/scene_graph/transform.rs `Transform`. The Rust struct keeps the
cached matrices in `RefCell`s and the flags in `Cell`s (interior
mutability); here every operation returns the updated value instead. -/
structure Transform where
  translation : Vec3
  rotation : Quat
  scale : ℚ
  local_matrix : Mat4
  world_matrix : Mat4
  inverse_transpose_world_matrix : Mat4
  local_dirty : Bool
  world_dirty : Bool
  has_changed_since_last_update : Bool
deriving DecidableEq

namespace Transform

/-- `Transform::from_translation`. -/
def from_translation (translation : Vec3) : Transform where
  translation := translation
  rotation := Quat.identity
  scale := 1
  local_matrix := Mat4.identity
  world_matrix := Mat4.identity
  inverse_transpose_world_matrix := Mat4.identity
  local_dirty := true
  world_dirty := true
  has_changed_since_last_update := true

/-- `Transform::invalidate_world`. -/
def invalidate_world (t : Transform) : Transform :=
  { t with world_dirty := true }

/-- `Transform::invalidate_local`. -/
def invalidate_local (t : Transform) : Transform :=
  { t with local_dirty := true, world_dirty := true,
           has_changed_since_last_update := true }

/-- `Transform::get_local_matrix`: recompute the local matrix from
scale/rotation/translation when `local_dirty`, clearing that flag and
invalidating the world matrix; returns the matrix together with the updated
cache state. -/
def get_local_matrix (t : Transform) : Mat4 × Transform :=
  if t.local_dirty then
    let matrix := Mat4.from_scale_rotation_translation (Vec3.splat t.scale)
      t.rotation t.translation
    (matrix,
      (({ t with local_matrix := matrix, local_dirty := false })).invalidate_world)
  else
    (t.local_matrix, t)

/-- `Transform::get_world_matrix` (a plain read of the cache). -/
def get_world_matrix (t : Transform) : Mat4 := t.world_matrix

/-- `Transform::get_inverse_transpose_world_matrix`. -/
def get_inverse_transpose_world_matrix (t : Transform) : Mat4 :=
  t.inverse_transpose_world_matrix

/-- `Transform::set_world_matrix`. -/
def set_world_matrix (t : Transform) (world_matrix : Mat4) : Transform :=
  { t with world_matrix := world_matrix, world_dirty := false,
           has_changed_since_last_update := true,
           inverse_transpose_world_matrix := world_matrix.inverse.transpose }

/-- `Transform::is_world_dirty`. -/
def is_world_dirty (t : Transform) : Bool := t.world_dirty

/-- `Transform::set_rotation`. -/
def set_rotation (t : Transform) (rotation : Quat) : Transform :=
  ({ t with rotation := rotation }).invalidate_local

/-- `Transform::set_translation`. -/
def set_translation (t : Transform) (translation : Vec3) : Transform :=
  ({ t with translation := translation }).invalidate_local

/-- `Transform::set_scale`. -/
def set_scale (t : Transform) (scale : ℚ) : Transform :=
  ({ t with scale := scale }).invalidate_local

/-- `Transform::set_transform`. -/
def set_transform (t : Transform) (translation : Vec3) (rotation : Quat)
    (scale : ℚ) : Transform :=
  ({ t with translation := translation, rotation := rotation,
            scale := scale }).invalidate_local

/-- `Transform::reset_flags`. -/
def reset_flags (t : Transform) : Transform :=
  { t with has_changed_since_last_update := false }

/-- `Transform::has_changed`. -/
def has_changed (t : Transform) : Bool := t.has_changed_since_last_update

/-- The matrix `get_local_matrix` computes from the current
translation/rotation/scale fields. -/
def trsMatrix (t : Transform) : Mat4 :=
  Mat4.from_scale_rotation_translation (Vec3.splat t.scale) t.rotation
    t.translation

end Transform

/-! ## Scene graph: src/scene_graph/object3d.rs, scene_model.rs, scene.rs

`id_arena::Arena` allocates ids densely in insertion order and iterates in
that order; it is modelled as a `List`, with ids as positions. -/

/-- Modelled from the spec: the mesh-table entry fields that
`DrawableManager::gather_drawables_from_scene` reads
(`primitive.global_index`, `primitive.material_id.index()`). The
`ModelPrimitive` revision declaring these fields is not under src/ (the
src/model.rs revision predates them); per the spec they are the primitive's
global mesh-table index and its material index, opaque integers. -/
structure ModelPrimitive where
  global_index : ℕ
  material_id : ℕ
deriving DecidableEq

/-- src/model.rs `Model` (the fields gathering reads). -/
structure Model where
  name : String
  primitives : List ModelPrimitive
deriving DecidableEq

/-- src/scene_graph/scene_model.rs `SceneModel`. -/
structure SceneModel where
  name : String
  model : Model
deriving DecidableEq

/-- src/scene_graph/object3d.rs `Object3D`. The `enabled` flag is read by
`gather_drawables_from_scene`; its declaration is not in the src/ revision
of object3d.rs and is modelled from the spec ("enabled flag" in the
Object3D data model). -/
structure Object3D where
  name : String
  transform : Transform
  model_id : Option ℕ
  parent_id : Option ℕ
  child_ids : List ℕ
  enabled : Bool
deriving DecidableEq

/-- `Object3D::default()`. -/
def Object3D.default : Object3D where
  name := ""
  transform := Transform.from_translation Vec3.zero
  model_id := none
  parent_id := none
  child_ids := []
  enabled := true

/-- src/scene_graph/scene.rs `Scene` (the arenas; the glTF bookkeeping
fields are only used while spawning glTF assets, outside this embedding). -/
structure Scene where
  objects : List Object3D
  models : List SceneModel
deriving DecidableEq

namespace Scene

/-- `Scene::new`. -/
def new : Scene := ⟨[], []⟩

/-- `Scene::add_object` (arena alloc: append, id is the position). -/
def add_object (s : Scene) (object : Object3D) : Scene × ℕ :=
  ({ s with objects := s.objects ++ [object] }, s.objects.length)

/-- `Scene::get_object`. -/
def get_object (s : Scene) (id : ℕ) : Option Object3D := s.objects[id]?

/-- Child list of the object at `id` (empty when the id is dangling). -/
def childIdsAt (s : Scene) (id : ℕ) : List ℕ :=
  match s.objects[id]? with
  | some o => o.child_ids
  | none => []

/-- Parent id of the object at `id`. -/
def parentIdAt (s : Scene) (id : ℕ) : Option ℕ :=
  match s.objects[id]? with
  | some o => o.parent_id
  | none => none

/-- `Scene::invalidate_object_hierarchy`, with an explicit recursion budget
(the Rust recursion is unbounded; one unit of fuel is spent per tree
level, so any fuel exceeding the subtree depth gives the Rust behaviour). -/
def invalidate_object_hierarchy_fueled : ℕ → Scene → ℕ → Scene
  | 0, s, _ => s
  | fuel + 1, s, object_id =>
    match s.objects[object_id]? with
    | none => s
    | some o =>
      let objs := s.objects.set object_id
        { o with transform := o.transform.invalidate_world }
      let s1 : Scene := { s with objects := objs }
      o.child_ids.foldl
        (fun acc child_id =>
          invalidate_object_hierarchy_fueled fuel acc child_id) s1

/-- `Scene::invalidate_object_hierarchy` at the standard budget (the arena
size bounds the depth of any well-formed hierarchy). -/
def invalidate_object_hierarchy (s : Scene) (object_id : ℕ) : Scene :=
  invalidate_object_hierarchy_fueled s.objects.length s object_id

/-- The per-node step of `Scene::update_object_transform_recursive`:
recompute `world = parent_world * local` when the world transform is
dirty. -/
def update_object_transform_node (o : Object3D) (parent_world_matrix : Mat4) :
    Object3D :=
  if o.transform.is_world_dirty then
    let (local_matrix, t1) := o.transform.get_local_matrix
    let world_matrix := parent_world_matrix.mul local_matrix
    { o with transform := t1.set_world_matrix world_matrix }
  else o

/-- `Scene::update_object_transform_recursive`, fueled like the
invalidation walk: update the node, then visit the children with this
object's world matrix. -/
def update_object_transform_recursive :
    ℕ → Scene → ℕ → Mat4 → Scene
  | 0, s, _, _ => s
  | fuel + 1, s, object_id, parent_world_matrix =>
    match s.objects[object_id]? with
    | none => s
    | some o =>
      let o1 : Object3D := update_object_transform_node o parent_world_matrix
      let s1 : Scene := { s with objects := s.objects.set object_id o1 }
      let world_matrix := o1.transform.get_world_matrix
      o1.child_ids.foldl
        (fun acc child_id =>
          update_object_transform_recursive fuel acc child_id world_matrix) s1

/-- `Scene::update_transforms`: visit every root object (no parent), in
arena order, propagating from the identity matrix. -/
def update_transforms (s : Scene) : Scene :=
  let root_objects := (List.range s.objects.length).filter
    (fun id => (s.parentIdAt id).isNone && (s.objects[id]?).isSome)
  root_objects.foldl
    (fun acc root_id =>
      update_object_transform_recursive acc.objects.length acc root_id
        Mat4.identity) s

/-- First block of `Scene::set_object_parent`: remove `child_id` from the
old parent's child list. -/
def set_object_parent_unlink_old (s : Scene) (child_id : ℕ) : Scene :=
  match s.objects[child_id]? with
  | some child =>
    match child.parent_id with
    | some old_parent_id =>
      match s.objects[old_parent_id]? with
      | some old_parent =>
        let objs := s.objects.set old_parent_id
          { old_parent with child_ids :=
              old_parent.child_ids.filter (fun id => id ≠ child_id) }
        { s with objects := objs }
      | none => s
    | none => s
  | none => s

/-- The relinking part of `Scene::set_object_parent` (everything before
the final hierarchy invalidation): unlink from the old parent, store the
new parent id, and append to the new parent's child list. -/
def set_object_parent_relink (s : Scene) (child_id : ℕ)
    (new_parent_id : Option ℕ) : Scene :=
  let s1 : Scene := s.set_object_parent_unlink_old child_id
  match s1.objects[child_id]? with
  | some child =>
    let objs2 := s1.objects.set child_id
      { child with parent_id := new_parent_id }
    let s2 : Scene := { s1 with objects := objs2 }
    match new_parent_id with
    | some npid =>
      match s2.objects[npid]? with
      | some new_parent =>
        let objs3 := s2.objects.set npid
          { new_parent with child_ids := new_parent.child_ids ++ [child_id] }
        { s2 with objects := objs3 }
      | none => s2
    | none => s2
  | none => s1

/-- `Scene::set_object_parent`. -/
def set_object_parent (s : Scene) (child_id : ℕ)
    (new_parent_id : Option ℕ) : Scene :=
  (s.set_object_parent_relink child_id new_parent_id).invalidate_object_hierarchy
    child_id

/-- The transform mutation of `Scene::set_object_translation` (before the
hierarchy invalidation). -/
def set_object_translation_mut (s : Scene) (object_id : ℕ) (translation : Vec3) :
    Scene :=
  match s.objects[object_id]? with
  | some o =>
    let objs := s.objects.set object_id
      { o with transform := o.transform.set_translation translation }
    { s with objects := objs }
  | none => s

/-- `Scene::set_object_translation`. -/
def set_object_translation (s : Scene) (object_id : ℕ) (translation : Vec3) :
    Scene :=
  (s.set_object_translation_mut object_id translation).invalidate_object_hierarchy
    object_id

/-- The transform mutation of `Scene::set_object_rotation`. -/
def set_object_rotation_mut (s : Scene) (object_id : ℕ) (rotation : Quat) :
    Scene :=
  match s.objects[object_id]? with
  | some o =>
    let objs := s.objects.set object_id
      { o with transform := o.transform.set_rotation rotation }
    { s with objects := objs }
  | none => s

/-- `Scene::set_object_rotation`. -/
def set_object_rotation (s : Scene) (object_id : ℕ) (rotation : Quat) : Scene :=
  (s.set_object_rotation_mut object_id rotation).invalidate_object_hierarchy
    object_id

/-- The transform mutation of `Scene::set_object_scale`. -/
def set_object_scale_mut (s : Scene) (object_id : ℕ) (scale : ℚ) : Scene :=
  match s.objects[object_id]? with
  | some o =>
    let objs := s.objects.set object_id
      { o with transform := o.transform.set_scale scale }
    { s with objects := objs }
  | none => s

/-- `Scene::set_object_scale`. -/
def set_object_scale (s : Scene) (object_id : ℕ) (scale : ℚ) : Scene :=
  (s.set_object_scale_mut object_id scale).invalidate_object_hierarchy object_id

/-- The transform mutation of `Scene::set_object_transform`. -/
def set_object_transform_mut (s : Scene) (object_id : ℕ) (translation : Vec3)
    (rotation : Quat) (scale : ℚ) : Scene :=
  match s.objects[object_id]? with
  | some o =>
    let objs := s.objects.set object_id
      { o with transform := o.transform.set_transform translation rotation scale }
    { s with objects := objs }
  | none => s

/-- `Scene::set_object_transform`. -/
def set_object_transform (s : Scene) (object_id : ℕ) (translation : Vec3)
    (rotation : Quat) (scale : ℚ) : Scene :=
  (s.set_object_transform_mut object_id translation rotation scale).invalidate_object_hierarchy
    object_id

/-- `Scene::get_object_transform`. -/
def get_object_transform (s : Scene) (object_id : ℕ) : Option Transform :=
  (s.objects[object_id]?).map (fun o => o.transform)

/-- `Scene::early_update`: clear the per-frame change flags. -/
def early_update (s : Scene) : Scene :=
  let objs := s.objects.map
    (fun o => { o with transform := o.transform.reset_flags })
  { s with objects := objs }

/-- `Scene::late_update`. -/
def late_update (s : Scene) : Scene := s.update_transforms

end Scene

/-! ## Scene-graph reachability, well-formedness and cache coherence -/

/-- `P` holds of the value inside an optional, vacuously for `none`. -/
def OptHolds {α : Type} : Option α → (α → Prop) → Prop
  | none, _ => True
  | some a, P => P a

instance {α : Type} (x : Option α) (P : α → Prop) [∀ a, Decidable (P a)] :
    Decidable (OptHolds x P) := by
  cases x with
  | none => exact isTrue trivial
  | some a => exact inferInstanceAs (Decidable (P a))

/-- Case split on an optional, as a proposition. -/
def OptCases {α : Type} : Option α → Prop → (α → Prop) → Prop
  | none, Pn, _ => Pn
  | some a, _, Ps => Ps a

instance {α : Type} (x : Option α) (Pn : Prop) (Ps : α → Prop)
    [Decidable Pn] [∀ a, Decidable (Ps a)] : Decidable (OptCases x Pn Ps) := by
  cases x with
  | none => exact inferInstanceAs (Decidable Pn)
  | some a => exact inferInstanceAs (Decidable (Ps a))

/-- Everything `Scene::update_*`/`invalidate_*` never change about an
object: its links, references, flags unrelated to the matrix cache, and the
local translation/rotation/scale data. -/
def Object3D.skel (o : Object3D) :
    List ℕ × Option ℕ × Option ℕ × Bool × String × Vec3 × Quat × ℚ :=
  (o.child_ids, o.parent_id, o.model_id, o.enabled, o.name,
    o.transform.translation, o.transform.rotation, o.transform.scale)

/-- The per-object effect of `Scene::invalidate_object_hierarchy`. -/
def Object3D.dirtyWorld (o : Object3D) : Object3D :=
  { o with transform := o.transform.invalidate_world }

namespace Scene

/-- One parent-to-child edge of the scene graph. -/
def childEdge (s : Scene) (a b : ℕ) : Prop := b ∈ s.childIdsAt a

/-- `Reach s a b`: `b` lies in the subtree hanging from `a` (including
`a` itself), following child lists. -/
def Reach (s : Scene) : ℕ → ℕ → Prop := Relation.ReflTransGen s.childEdge

/-- A ranking certificate of acyclicity: every child edge strictly
decreases the rank. The Rust recursion over the hierarchy terminates
exactly on such scenes. -/
def RankOk (s : Scene) (rank : ℕ → ℕ) : Prop :=
  ∀ i < s.objects.length, ∀ c ∈ s.childIdsAt i, rank c < rank i

/-- All ranks below the arena size, so that the arena size is enough fuel
for any walk. -/
def RankBounded (s : Scene) (rank : ℕ → ℕ) : Prop :=
  ∀ i < s.objects.length, rank i < s.objects.length

/-- Every stored parent id is a live object listing `i` among its
children. -/
def ParentChildLinked (s : Scene) : Prop :=
  ∀ i < s.objects.length,
    OptCases (s.parentIdAt i) True
      (fun p => p < s.objects.length ∧ i ∈ s.childIdsAt p)

/-- Every child-list entry is a live object whose stored parent is the
list's owner. -/
def ChildParentLinked (s : Scene) : Prop :=
  ∀ i < s.objects.length, ∀ c ∈ s.childIdsAt i,
    c < s.objects.length ∧ s.parentIdAt c = some i

/-- Cache coherence, part 1: a clean local flag means the cached local
matrix is the one recomputation would produce. -/
def LocalCoherent (s : Scene) : Prop :=
  ∀ i < s.objects.length, OptHolds s.objects[i]?
    (fun o => o.transform.local_dirty = false →
      o.transform.local_matrix = o.transform.trsMatrix)

/-- Cache coherence, part 2: a dirty local matrix always comes with a
dirty world matrix (`invalidate_local` sets both). -/
def LocalDirtyWorldDirty (s : Scene) : Prop :=
  ∀ i < s.objects.length, OptHolds s.objects[i]?
    (fun o => o.transform.local_dirty = true →
      o.transform.world_dirty = true)

/-- Cache coherence, part 3: dirtiness is downward closed — the Scene API
invalidates whole subtrees, never a node alone. -/
def DirtyDownwardClosed (s : Scene) : Prop :=
  ∀ i < s.objects.length, OptHolds s.objects[i]?
    (fun o => o.transform.world_dirty = true →
      ∀ c ∈ o.child_ids, OptHolds s.objects[c]?
        (fun co => co.transform.world_dirty = true))

/-- Cache coherence, part 4: a clean world flag means the cached world
matrix is the parent's cached world matrix times the object's own local
(TRS) matrix — the identity for roots. -/
def WorldCleanCoherent (s : Scene) : Prop :=
  ∀ i < s.objects.length, OptHolds s.objects[i]?
    (fun o => o.transform.world_dirty = false →
      OptCases o.parent_id
        (o.transform.world_matrix = o.transform.trsMatrix)
        (fun p => OptHolds s.objects[p]?
          (fun po => o.transform.world_matrix =
            po.transform.world_matrix.mul o.transform.trsMatrix)))

/-- The state invariant the Scene API maintains between mutations: it is
what "invalidation performed through the Scene API" leaves behind. -/
def Coherent (s : Scene) : Prop :=
  LocalCoherent s ∧ LocalDirtyWorldDirty s ∧ DirtyDownwardClosed s ∧
    WorldCleanCoherent s

/-- The contract on the `parent_world_matrix` argument of
`update_object_transform_recursive`: the identity for a root, and the
parent's current (already propagated, clean) world matrix otherwise. -/
def PwOk (s : Scene) (id : ℕ) (pw : Mat4) : Prop :=
  OptCases (s.parentIdAt id) (pw = Mat4.identity)
    (fun p => OptHolds s.objects[p]?
      (fun po => pw = po.transform.world_matrix ∧
        po.transform.world_dirty = false))

instance (s : Scene) (rank : ℕ → ℕ) : Decidable (s.RankOk rank) :=
  decidable_of_iff
    (∀ i < s.objects.length, ∀ c ∈ s.childIdsAt i, rank c < rank i) Iff.rfl

instance (s : Scene) (rank : ℕ → ℕ) : Decidable (s.RankBounded rank) :=
  decidable_of_iff (∀ i < s.objects.length, rank i < s.objects.length) Iff.rfl

instance (s : Scene) : Decidable s.ParentChildLinked :=
  decidable_of_iff
    (∀ i < s.objects.length,
      OptCases (s.parentIdAt i) True
        (fun p => p < s.objects.length ∧ i ∈ s.childIdsAt p)) Iff.rfl

instance (s : Scene) : Decidable s.ChildParentLinked :=
  decidable_of_iff
    (∀ i < s.objects.length, ∀ c ∈ s.childIdsAt i,
      c < s.objects.length ∧ s.parentIdAt c = some i) Iff.rfl

instance (s : Scene) : Decidable s.LocalCoherent :=
  decidable_of_iff
    (∀ i < s.objects.length, OptHolds s.objects[i]?
      (fun o => o.transform.local_dirty = false →
        o.transform.local_matrix = o.transform.trsMatrix)) Iff.rfl

instance (s : Scene) : Decidable s.LocalDirtyWorldDirty :=
  decidable_of_iff
    (∀ i < s.objects.length, OptHolds s.objects[i]?
      (fun o => o.transform.local_dirty = true →
        o.transform.world_dirty = true)) Iff.rfl

instance (s : Scene) : Decidable s.DirtyDownwardClosed :=
  decidable_of_iff
    (∀ i < s.objects.length, OptHolds s.objects[i]?
      (fun o => o.transform.world_dirty = true →
        ∀ c ∈ o.child_ids, OptHolds s.objects[c]?
          (fun co => co.transform.world_dirty = true))) Iff.rfl

instance (s : Scene) : Decidable s.WorldCleanCoherent :=
  decidable_of_iff
    (∀ i < s.objects.length, OptHolds s.objects[i]?
      (fun o => o.transform.world_dirty = false →
        OptCases o.parent_id
          (o.transform.world_matrix = o.transform.trsMatrix)
          (fun p => OptHolds s.objects[p]?
            (fun po => o.transform.world_matrix =
              po.transform.world_matrix.mul o.transform.trsMatrix)))) Iff.rfl

instance (s : Scene) : Decidable s.Coherent :=
  decidable_of_iff
    (s.LocalCoherent ∧ s.LocalDirtyWorldDirty ∧ s.DirtyDownwardClosed ∧
      s.WorldCleanCoherent) Iff.rfl

instance (s : Scene) (id : ℕ) (pw : Mat4) : Decidable (s.PwOk id pw) :=
  decidable_of_iff
    (OptCases (s.parentIdAt id) (pw = Mat4.identity)
      (fun p => OptHolds s.objects[p]?
        (fun po => pw = po.transform.world_matrix ∧
          po.transform.world_dirty = false))) Iff.rfl

/-- How the invalidation walk relates its output to its input: the models
arena and object count are untouched, and each slot is either untouched or
world-dirtied. -/
def InvFrame (s t : Scene) : Prop :=
  t.models = s.models ∧ t.objects.length = s.objects.length ∧
    ∀ j : ℕ, t.objects[j]? = s.objects[j]? ∨
      t.objects[j]? = (s.objects[j]?).map Object3D.dirtyWorld

/-- How the propagation walk relates its output to its input: models and
object count untouched, every object's skeleton (links, references, TRS
fields) preserved, and no world flag is ever dirtied — the walk only
cleans. -/
def UpdFrame (s t : Scene) : Prop :=
  t.models = s.models ∧ t.objects.length = s.objects.length ∧
    (∀ j : ℕ, (t.objects[j]?).map Object3D.skel =
      (s.objects[j]?).map Object3D.skel) ∧
    ∀ j : ℕ, ∀ o1, t.objects[j]? = some o1 →
      o1.transform.world_dirty = true →
      ∃ o0, s.objects[j]? = some o0 ∧ o0.transform.world_dirty = true

end Scene

/-- The five Scene-level mutations of claim C4. -/
inductive SceneMutation where
  | translationOf (translation : Vec3)
  | rotationOf (rotation : Quat)
  | scaleOf (scale : ℚ)
  | transformOf (translation : Vec3) (rotation : Quat) (scale : ℚ)
  | parentOf (new_parent_id : Option ℕ)

namespace SceneMutation

/-- Run the mutation through the Scene API. -/
def applyMut : SceneMutation → Scene → ℕ → Scene
  | .translationOf v, s, id => s.set_object_translation id v
  | .rotationOf q, s, id => s.set_object_rotation id q
  | .scaleOf c, s, id => s.set_object_scale id c
  | .transformOf v q c, s, id => s.set_object_transform id v q c
  | .parentOf p, s, id => s.set_object_parent id p

/-- The state each Scene API mutation has produced right before its final
`invalidate_object_hierarchy` call. -/
def applyPre : SceneMutation → Scene → ℕ → Scene
  | .translationOf v, s, id => s.set_object_translation_mut id v
  | .rotationOf q, s, id => s.set_object_rotation_mut id q
  | .scaleOf c, s, id => s.set_object_scale_mut id c
  | .transformOf v q c, s, id => s.set_object_transform_mut id v q c
  | .parentOf p, s, id => s.set_object_parent_relink id p

end SceneMutation

/-! ## Drawables: src/rendering/instancing/drawable.rs, drawable_manager.rs,
drawable_storage_buffer.rs, draw_command_generator.rs -/

/-- src/rendering/instancing/drawable.rs `Drawable` (`#[repr(C)]`, matching
the WGSL struct): a 4x4 f32 world matrix, the primitive's global mesh-table
index and material id as `u32`, and 8 bytes of explicit padding. -/
structure Drawable where
  model_matrix : Mat4
  primitive_index : ℕ
  material_id : ℕ
deriving DecidableEq

namespace Drawable

/-- `Drawable::new` (the `_padding` field is zeroed; it carries no data and
is represented only in the layout computation below). -/
def new (model_matrix : Mat4) (primitive_index : ℕ) (material_id : ℕ) :
    Drawable :=
  ⟨model_matrix, primitive_index, material_id⟩

/-- `(size, alignment)` in bytes of each field of the `#[repr(C)]` struct,
in declaration order: `model_matrix: Mat4` (64 bytes, 16-aligned),
`primitive_index: u32`, `material_id: u32`, `_padding: [u32; 2]`. -/
def fieldLayouts : List (ℕ × ℕ) := [(64, 16), (4, 4), (4, 4), (8, 4)]

end Drawable

/-- Round `offset` up to a multiple of `align` (C layout padding rule). -/
def alignUp (offset align : ℕ) : ℕ :=
  if align = 0 then offset else ((offset + align - 1) / align) * align

/-- Field offsets assigned by the C (`#[repr(C)]`) layout algorithm:
each field at the next multiple of its alignment. -/
def reprCOffsets (fields : List (ℕ × ℕ)) : List ℕ :=
  (fields.foldl
    (fun (acc : List ℕ × ℕ) f =>
      let off := alignUp acc.2 f.2
      (acc.1 ++ [off], off + f.1))
    ([], 0)).1

/-- Struct size under `#[repr(C)]`: fields packed at aligned offsets, total
rounded up to the struct alignment (the maximum field alignment). -/
def reprCSize (fields : List (ℕ × ℕ)) : ℕ :=
  let final := fields.foldl
    (fun (acc : ℕ × ℕ) f => (alignUp acc.1 f.2 + f.1, max acc.2 f.2))
    (0, 1)
  alignUp final.1 final.2

/-- `std::mem::size_of::<Drawable>()`. -/
def Drawable.sizeBytes : ℕ := reprCSize Drawable.fieldLayouts

/-- Modelled from the spec: the `instancing::MAX_DRAWABLES` capacity
constant. Its declaration (src/rendering/instancing/mod.rs revision) is not
under src/ although several src/ files reference it; the spec fixes it as
the compile-time maximum drawable count, e.g. 32,000. -/
def MAX_DRAWABLES : ℕ := 32000

/-- src/rendering/instancing/drawable_storage_buffer.rs
`DrawableStorageBuffer`: a GPU buffer of `size_of::<Drawable>() * capacity`
bytes (`create_buffer`). Only the size takes part in the claims. -/
structure DrawableStorageBuffer where
  sizeBytes : ℕ
deriving DecidableEq

/-- `DrawableStorageBuffer::create_buffer`. -/
def DrawableStorageBuffer.create_buffer (capacity : ℕ) : DrawableStorageBuffer :=
  ⟨Drawable.sizeBytes * capacity⟩

/-- Outcome of `DrawableStorageBuffer::write_drawables_at_offset`: either
the early return on an empty slice (no GPU write is issued at all), a
`queue.write_buffer` of the full byte range, or the validation error wgpu
raises when the data would overrun the buffer. -/
inductive WriteOutcome where
  | noWrite : WriteOutcome
  | wrote (offsetBytes : ℕ) (lenBytes : ℕ) : WriteOutcome
  | validationError : WriteOutcome
deriving DecidableEq

/-- `wgpu::Queue::write_buffer` contract (dependency behaviour, per the
wgpu documentation): writing `lenBytes` bytes at `offsetBytes` fails with a
validation error if the data overruns the buffer, and otherwise writes the
whole slice. -/
def queueWriteBuffer (buffer : DrawableStorageBuffer) (offsetBytes lenBytes : ℕ) :
    WriteOutcome :=
  if offsetBytes + lenBytes ≤ buffer.sizeBytes then .wrote offsetBytes lenBytes
  else .validationError

/-- `DrawableStorageBuffer::write_drawables_at_offset`: return immediately
on an empty slice, otherwise write all instances at
`start_index * size_of::<Drawable>()`. -/
def DrawableStorageBuffer.write_drawables_at_offset
    (buffer : DrawableStorageBuffer) (instances : List Drawable)
    (start_index : ℕ) : WriteOutcome :=
  if instances.isEmpty then .noWrite
  else
    queueWriteBuffer buffer (start_index * Drawable.sizeBytes)
      (instances.length * Drawable.sizeBytes)

/-- src/rendering/instancing/drawable_manager.rs
`DrawableManager::gather_drawables_from_scene`: clear the drawable list,
then for every enabled arena object whose `model_id` resolves, push one
`Drawable` per primitive of that model, carrying the object's current world
matrix, the primitive's global index and its material id (both cast
`as u32`, hence reduced mod 2^32). The source call site also reads the
transform's inverse-transpose world matrix, but the `Drawable` record
(drawable.rs) has no field for it. -/
def gather_drawables_from_scene (drawables : List Drawable) (scene : Scene) :
    List Drawable :=
  -- self.drawables.clear();
  let cleared : List Drawable := []
  scene.objects.foldl
    (fun acc object =>
      if !object.enabled then acc
      else
        match object.model_id with
        | none => acc
        | some model_id =>
          match scene.models[model_id]? with
          | none => acc
          | some model =>
            let matrix := object.transform.get_world_matrix
            acc ++ model.model.primitives.map
              (fun primitive =>
                Drawable.new matrix (primitive.global_index % 2 ^ 32)
                  (primitive.material_id % 2 ^ 32)))
    cleared

/-- The buffers `DrawCommandGenerator::dispatch` clears and the compute
pipelines it runs, named after the source fields. -/
inductive GpuBuffer where
  | drawCommands
  | drawCommandsCount
  | drawableVisibility
  | visibleDrawablesByMesh
  | drawableLocalIndices
deriving DecidableEq

inductive ComputePipeline where
  | frustumCulling
  | generateDraws
  | gatherInstanceData
deriving DecidableEq

/-- One command recorded on the frame's command encoder during
`DrawCommandGenerator::dispatch`. -/
inductive EncoderCommand where
  | clearBuffer (buffer : GpuBuffer) : EncoderCommand
  | computePass (pipeline : ComputePipeline) (workgroups : ℕ × ℕ × ℕ) :
      EncoderCommand
deriving DecidableEq

def EncoderCommand.isClear : EncoderCommand → Bool
  | .clearBuffer _ => true
  | .computePass _ _ => false

def EncoderCommand.isComputePass : EncoderCommand → Bool
  | .clearBuffer _ => false
  | .computePass _ _ => true

/-- src/rendering/instancing/draw_command_generator.rs
`DrawCommandGenerator::dispatch`: the exact sequence of commands the
function encodes, in encoding order, on the single command encoder it is
handed — five buffer clears, then the frustum-culling pass
(`instance_count.div_ceil(64)` workgroups), the draw-command generation
pass (one workgroup), and the instance-gather pass (again
`instance_count.div_ceil(64)` workgroups). -/
def DrawCommandGenerator.dispatch (instance_count : ℕ) : List EncoderCommand :=
  let workgroupSize : ℕ := 64
  let drawable_workgroup_count := (instance_count + workgroupSize - 1) / workgroupSize
  [.clearBuffer .drawCommands,
    .clearBuffer .drawCommandsCount,
    .clearBuffer .drawableVisibility,
    .clearBuffer .visibleDrawablesByMesh,
    .clearBuffer .drawableLocalIndices,
    .computePass .frustumCulling (drawable_workgroup_count, 1, 1),
    .computePass .generateDraws (1, 1, 1),
    .computePass .gatherInstanceData (drawable_workgroup_count, 1, 1)]

/-- Pipeline of a compute-pass command, `none` for buffer clears. -/
def EncoderCommand.passPipeline : EncoderCommand → Option ComputePipeline
  | .clearBuffer _ => none
  | .computePass pipeline _ => some pipeline

/-- The per-object drawable records `gather_drawables_from_scene` emits:
nothing for a disabled object or an unresolved/absent model reference, and
one record per primitive otherwise. -/
def drawablesForObject (s : Scene) (object : Object3D) : List Drawable :=
  if object.enabled then
    match object.model_id with
    | none => []
    | some model_id =>
      match s.models[model_id]? with
      | none => []
      | some model =>
        model.model.primitives.map
          (fun primitive =>
            Drawable.new object.transform.get_world_matrix
              (primitive.global_index % 2 ^ 32)
              (primitive.material_id % 2 ^ 32))
  else []

/-- The observation C4 is about, at one arena slot. -/
def worldDirtyAt (s : Scene) (j : ℕ) : Option Bool :=
  (s.objects[j]?).map (fun o => o.transform.world_dirty)

/-- A frustum used as concrete test data: the six planes of the axis-aligned
cube `[-1, 1]^3`, inward-facing normals. -/
def boxFrustum : Frustum :=
  ⟨[⟨⟨1, 0, 0⟩, 1⟩, ⟨⟨-1, 0, 0⟩, 1⟩, ⟨⟨0, 1, 0⟩, 1⟩, ⟨⟨0, -1, 0⟩, 1⟩,
    ⟨⟨0, 0, 1⟩, 1⟩, ⟨⟨0, 0, -1⟩, 1⟩]⟩

/-- A scene whose single enabled object references a model with `count`
primitives, used as concrete test data for the capacity bound. -/
def capacityScene (count : ℕ) : Scene where
  objects := [{ Object3D.default with model_id := some 0 }]
  models := [⟨"mesh", ⟨"mesh", List.replicate count ⟨0, 0⟩⟩⟩]

/-- Concrete test data: a parent (0) with one child (1) plus an unrelated
clean object (2). -/
def mutationWitnessScene : Scene where
  objects :=
    [{ name := "root", transform := Transform.from_translation ⟨0, 0, 0⟩,
       model_id := none, parent_id := none, child_ids := [1],
       enabled := true },
     { name := "child", transform := Transform.from_translation ⟨1, 0, 0⟩,
       model_id := none, parent_id := some 0, child_ids := [],
       enabled := true },
     { name := "other",
       transform :=
        { Transform.from_translation ⟨2, 0, 0⟩ with
            local_dirty := false, world_dirty := false },
       model_id := none, parent_id := none, child_ids := [],
       enabled := true }]
  models := []

/-- An acyclicity rank for `mutationWitnessScene`. -/
def mutationWitnessRank : ℕ → ℕ := fun i => if i = 1 then 0 else 1

/-- Concrete test data for the propagation pass: a dirty two-level
hierarchy plus an isolated root. -/
def propagationWitnessScene : Scene where
  objects :=
    [{ name := "root", transform := Transform.from_translation ⟨1, 2, 3⟩,
       model_id := none, parent_id := none, child_ids := [1],
       enabled := true },
     { name := "child", transform := Transform.from_translation ⟨4, 5, 6⟩,
       model_id := none, parent_id := some 0, child_ids := [],
       enabled := true },
     { name := "other", transform := Transform.from_translation ⟨7, 8, 9⟩,
       model_id := none, parent_id := none, child_ids := [],
       enabled := true }]
  models := []

/-- An acyclicity rank for `propagationWitnessScene`. -/
def propagationWitnessRank : ℕ → ℕ := fun i => if i = 1 then 0 else 1

/-! ## Helper lemmas -/

theorem Mat4.identity_mul (m : Mat4) : Mat4.identity.mul m = m := by
  cases m with
  | mk xA yA zA wA =>
    cases xA; cases yA; cases zA; cases wA
    simp only [Mat4.identity, Mat4.mul, Mat4.mulVec4, Vec4.smul, Vec4.add,
      Mat4.mk.injEq, Vec4.mk.injEq]
    norm_num

/-- The culling test reports an intersection whenever every plane sees at
least one transformed corner at non-negative signed distance. -/
theorem intersects_of_corner_inside (b : AABB) (frustum : Frustum)
    (transform : Mat4)
    (h : ∀ plane ∈ frustum.planes, ∃ corner ∈ b.corners,
      0 ≤ plane.signed_distance_to_point (transform.transform_point3 corner)) :
    b.intersects_frustum_transformed frustum transform = true := by
  simp only [AABB.intersects_frustum_transformed, Bool.not_eq_true',
    List.any_eq_false, List.all_eq_true, List.mem_map, decide_eq_true_eq]
  intro plane hplane
  obtain ⟨corner, hc, hdist⟩ := h plane hplane
  intro hall
  have := hall _ ⟨corner, hc, rfl⟩
  exact absurd this (not_lt.mpr hdist)

/-- The culling test reports no intersection whenever some plane sees every
transformed corner at negative signed distance. -/
theorem not_intersects_of_all_outside (b : AABB) (frustum : Frustum)
    (transform : Mat4)
    (h : ∃ plane ∈ frustum.planes, ∀ corner ∈ b.corners,
      plane.signed_distance_to_point (transform.transform_point3 corner) < 0) :
    b.intersects_frustum_transformed frustum transform = false := by
  simp only [AABB.intersects_frustum_transformed, Bool.not_eq_false',
    List.any_eq_true, List.all_eq_true, List.mem_map, decide_eq_true_eq]
  obtain ⟨plane, hplane, hall⟩ := h
  refine ⟨plane, hplane, ?_⟩
  rintro p ⟨corner, hc, rfl⟩
  exact hall corner hc

/-- Folding an append-producing step is a `flatMap` over the input. -/
theorem foldl_append_eq_flatMap {α β : Type} (g : α → List β) (l : List α)
    (init : List β) :
    l.foldl (fun acc a => acc ++ g a) init = init ++ l.flatMap g := by
  induction l generalizing init with
  | nil => simp
  | cons a l ih => simp [ih, List.append_assoc]

/-- The gathering loop body appends exactly `drawablesForObject`. -/
theorem gather_step_eq (s : Scene) (acc : List Drawable) (object : Object3D) :
    (if !object.enabled then acc
      else
        match object.model_id with
        | none => acc
        | some model_id =>
          match s.models[model_id]? with
          | none => acc
          | some model =>
            let matrix := object.transform.get_world_matrix
            acc ++ model.model.primitives.map
              (fun primitive =>
                Drawable.new matrix (primitive.global_index % 2 ^ 32)
                  (primitive.material_id % 2 ^ 32))) =
      acc ++ drawablesForObject s object := by
  by_cases he : object.enabled
  · cases hm : object.model_id with
    | none => simp [he, hm, drawablesForObject]
    | some model_id =>
      cases hmm : s.models[model_id]? with
      | none => simp [he, hm, hmm, drawablesForObject]
      | some model => simp [he, hm, hmm, drawablesForObject]
  · simp [Bool.not_eq_true] at he
    simp [he, drawablesForObject]

/-- `gather_drawables_from_scene` as a flat map over the arena. -/
theorem gather_eq_flatMap (drawables : List Drawable) (s : Scene) :
    gather_drawables_from_scene drawables s =
      s.objects.flatMap (drawablesForObject s) := by
  have h2 := foldl_append_eq_flatMap (drawablesForObject s) s.objects
    ([] : List Drawable)
  rw [List.nil_append] at h2
  unfold gather_drawables_from_scene
  exact (List.foldl_ext _ _ _
    (fun acc object _ => gather_step_eq s acc object)).trans h2

theorem Object3D.dirtyWorld_idem (o : Object3D) :
    o.dirtyWorld.dirtyWorld = o.dirtyWorld := rfl

theorem Object3D.dirtyWorld_comp :
    Object3D.dirtyWorld ∘ Object3D.dirtyWorld = Object3D.dirtyWorld :=
  funext fun o => Object3D.dirtyWorld_idem o

theorem Object3D.skel_dirtyWorld (o : Object3D) :
    o.dirtyWorld.skel = o.skel := rfl

theorem getElem?_some_lt {α : Type} {l : List α} {i : ℕ} {a : α}
    (h : l[i]? = some a) : i < l.length := by
  obtain ⟨hlt, -⟩ := List.getElem?_eq_some_iff.mp h
  exact hlt

theorem Scene.InvFrame.inv_of_eq {s t : Scene} (h : t = s) : s.InvFrame t := by
  subst h
  exact ⟨rfl, rfl, fun j => Or.inl rfl⟩

theorem Scene.InvFrame.inv_trans {s t u : Scene} (h1 : s.InvFrame t)
    (h2 : t.InvFrame u) : s.InvFrame u := by
  obtain ⟨hm1, hl1, hj1⟩ := h1
  obtain ⟨hm2, hl2, hj2⟩ := h2
  refine ⟨hm2.trans hm1, hl2.trans hl1, fun j => ?_⟩
  rcases hj2 j with h2j | h2j <;> rcases hj1 j with h1j | h1j <;>
    rw [h2j, h1j]
  · exact Or.inl rfl
  · exact Or.inr rfl
  · exact Or.inr rfl
  · rw [Option.map_map, Object3D.dirtyWorld_comp]
    exact Or.inr rfl

theorem Scene.InvFrame.inv_childIdsAt_eq {s t : Scene} (h : s.InvFrame t)
    (i : ℕ) : t.childIdsAt i = s.childIdsAt i := by
  rw [Scene.childIdsAt, Scene.childIdsAt]
  rcases h.2.2 i with hj | hj <;> rw [hj]
  cases s.objects[i]? with
  | none => rfl
  | some o => rfl

theorem Scene.InvFrame.inv_parentIdAt_eq {s t : Scene} (h : s.InvFrame t)
    (i : ℕ) : t.parentIdAt i = s.parentIdAt i := by
  rw [Scene.parentIdAt, Scene.parentIdAt]
  rcases h.2.2 i with hj | hj <;> rw [hj]
  cases s.objects[i]? with
  | none => rfl
  | some o => rfl

theorem Scene.InvFrame.inv_rankOk {s t : Scene} {rank : ℕ → ℕ}
    (h : s.InvFrame t) (hr : s.RankOk rank) : t.RankOk rank := by
  intro i hi c hc
  rw [h.2.1] at hi
  rw [h.inv_childIdsAt_eq] at hc
  exact hr i hi c hc

theorem Scene.reach_eq_of_childIdsAt_eq {s t : Scene}
    (h : ∀ i, t.childIdsAt i = s.childIdsAt i) : t.Reach = s.Reach := by
  have he : t.childEdge = s.childEdge := by
    funext a b
    rw [Scene.childEdge, Scene.childEdge, h a]
  rw [Scene.Reach, Scene.Reach, he]

theorem Scene.reach_head_cases {s : Scene} {id j : ℕ} (h : s.Reach id j) :
    j = id ∨ ∃ c ∈ s.childIdsAt id, s.Reach c j := by
  rcases Relation.ReflTransGen.cases_head h with h1 | ⟨c, hc, hr⟩
  · exact Or.inl h1.symm
  · exact Or.inr ⟨c, hc, hr⟩

theorem Scene.reach_of_child {s : Scene} {id c j : ℕ}
    (hc : c ∈ s.childIdsAt id) (h : s.Reach c j) : s.Reach id j :=
  Relation.ReflTransGen.head hc h

theorem Scene.reach_dangling {s : Scene} {id j : ℕ}
    (hnone : s.objects[id]? = none) (h : s.Reach id j) : j = id := by
  rcases Scene.reach_head_cases h with h1 | ⟨c, hc, -⟩
  · exact h1
  · rw [Scene.childIdsAt, hnone] at hc
    exact absurd hc (List.not_mem_nil c)

/-- The invalidation walk only world-dirties slots, and touches nothing
else. -/
theorem invalidate_fueled_frame (fuel : ℕ) (s : Scene) (id : ℕ) :
    s.InvFrame (Scene.invalidate_object_hierarchy_fueled fuel s id) := by
  induction fuel generalizing s id with
  | zero => exact Scene.InvFrame.inv_of_eq rfl
  | succ fuel ih =>
    have hfold : ∀ (cs : List ℕ) (s0 : Scene),
        s0.InvFrame (cs.foldl
          (fun acc child_id =>
            Scene.invalidate_object_hierarchy_fueled fuel acc child_id) s0) := by
      intro cs
      induction cs with
      | nil => exact fun s0 => Scene.InvFrame.inv_of_eq rfl
      | cons c t iht =>
        intro s0
        exact (ih s0 c).inv_trans
          (iht (Scene.invalidate_object_hierarchy_fueled fuel s0 c))
    cases h : s.objects[id]? with
    | none =>
      simp only [Scene.invalidate_object_hierarchy_fueled, h]
      exact Scene.InvFrame.inv_of_eq rfl
    | some o =>
      simp only [Scene.invalidate_object_hierarchy_fueled, h]
      refine Scene.InvFrame.inv_trans ?_ (hfold o.child_ids _)
      refine ⟨rfl, by simp, fun j => ?_⟩
      by_cases hij : j = id
      · subst hij
        rw [List.getElem?_set_self', h]
        exact Or.inr rfl
      · rw [List.getElem?_set_ne (fun hh => hij hh.symm)]
        exact Or.inl rfl

/-- Exact effect of the invalidation walk under an acyclicity rank: the
subtree of `object_id` is world-dirtied, everything else is untouched. -/
theorem invalidate_fueled_spec (rank : ℕ → ℕ) (fuel : ℕ) (s : Scene)
    (id : ℕ) (hrank : s.RankOk rank)
    (hfuel : rank id < fuel ∨ s.objects[id]? = none) (j : ℕ) :
    (s.Reach id j →
      (Scene.invalidate_object_hierarchy_fueled fuel s id).objects[j]? =
        (s.objects[j]?).map Object3D.dirtyWorld) ∧
    (¬s.Reach id j →
      (Scene.invalidate_object_hierarchy_fueled fuel s id).objects[j]? =
        s.objects[j]?) := by
  induction fuel generalizing s id j with
  | zero =>
    have hnone : s.objects[id]? = none := by
      rcases hfuel with h | h
      · omega
      · exact h
    constructor
    · intro hr
      rw [Scene.reach_dangling hnone hr]
      simp [Scene.invalidate_object_hierarchy_fueled, hnone]
    · intro
      rfl
  | succ fuel ih =>
    cases h : s.objects[id]? with
    | none =>
      simp only [Scene.invalidate_object_hierarchy_fueled, h]
      constructor
      · intro hr
        rw [Scene.reach_dangling h hr]
        simp [h]
      · intro _
        try rfl
        try trivial
    | some o =>
      have hidlt : id < s.objects.length := getElem?_some_lt h
      have hrankid : rank id < fuel + 1 := by
        rcases hfuel with hf | hf
        · exact hf
        · rw [h] at hf
          exact absurd hf (by simp)
      simp only [Scene.invalidate_object_hierarchy_fueled, h]
      set objs1 := s.objects.set id
        ({ o with transform := o.transform.invalidate_world }) with hobjs1
      set s1 : Scene := { s with objects := objs1 } with hs1
      have hs1id : s1.objects[id]? = some o.dirtyWorld := by
        rw [hs1, hobjs1]
        show (s.objects.set id o.dirtyWorld)[id]? = some o.dirtyWorld
        rw [List.getElem?_set_self', h]
        rfl
      have hs1ne : ∀ k, k ≠ id → s1.objects[k]? = s.objects[k]? := by
        intro k hk
        rw [hs1, hobjs1]
        exact List.getElem?_set_ne (fun hh => hk hh.symm)
      have hframe1 : s.InvFrame s1 := by
        refine ⟨rfl, by simp [hs1, hobjs1], fun k => ?_⟩
        by_cases hk : k = id
        · subst hk
          rw [hs1id, h]
          exact Or.inr rfl
        · rw [hs1ne k hk]
          exact Or.inl rfl
      have hchild1 : ∀ i, s1.childIdsAt i = s.childIdsAt i :=
        hframe1.inv_childIdsAt_eq
      have hreach1 : s1.Reach = s.Reach :=
        Scene.reach_eq_of_childIdsAt_eq hchild1
      have hrank1 : s1.RankOk rank := hframe1.inv_rankOk hrank
      have hcs : s.childIdsAt id = o.child_ids := by
        rw [Scene.childIdsAt, h]
      have hcrank : ∀ c ∈ o.child_ids, rank c < fuel := by
        intro c hc
        have := hrank id hidlt c (by rw [hcs]; exact hc)
        omega
      -- the fold over the children dirties exactly the union of their
      -- subtrees
      have hfold : ∀ (cs : List ℕ) (s0 : Scene), s0.RankOk rank →
          (∀ c ∈ cs, rank c < fuel) → ∀ k,
          ((∃ c ∈ cs, s0.Reach c k) →
            (cs.foldl
              (fun acc child_id =>
                Scene.invalidate_object_hierarchy_fueled fuel acc child_id)
              s0).objects[k]? = (s0.objects[k]?).map Object3D.dirtyWorld) ∧
          ((¬∃ c ∈ cs, s0.Reach c k) →
            (cs.foldl
              (fun acc child_id =>
                Scene.invalidate_object_hierarchy_fueled fuel acc child_id)
              s0).objects[k]? = s0.objects[k]?) := by
        intro cs
        induction cs with
        | nil =>
          intro s0 _ _ k
          exact ⟨fun hex => absurd hex (by simp), fun _ => rfl⟩
        | cons c t iht =>
          intro s0 hr0 hlt k
          set s2 := Scene.invalidate_object_hierarchy_fueled fuel s0 c with hs2
          have hframe2 : s0.InvFrame s2 := invalidate_fueled_frame fuel s0 c
          have hreach2 : s2.Reach = s0.Reach :=
            Scene.reach_eq_of_childIdsAt_eq hframe2.inv_childIdsAt_eq
          have hspec2 := fun k => ih s0 c hr0 (Or.inl (hlt c (by simp))) k
          have hrest := iht s2 (hframe2.inv_rankOk hr0)
            (fun d hd => hlt d (by simp [hd])) k
          simp only [List.foldl_cons, ← hs2]
          constructor
          · rintro ⟨cx, hcx, hrx⟩
            rcases List.mem_cons.mp hcx with hceq | hct
            · subst hceq
              have hset2 : s2.objects[k]? =
                  (s0.objects[k]?).map Object3D.dirtyWorld :=
                (hspec2 k).1 hrx
              by_cases hkt : ∃ d ∈ t, s2.Reach d k
              · rw [hrest.1 hkt, hset2, Option.map_map,
                  Object3D.dirtyWorld_comp]
              · rw [hrest.2 hkt, hset2]
            · have hkt : ∃ d ∈ t, s2.Reach d k := by
                rw [hreach2]
                exact ⟨cx, hct, hrx⟩
              rw [hrest.1 hkt]
              rcases hframe2.2.2 k with hk2 | hk2 <;> rw [hk2]
              rw [Option.map_map, Object3D.dirtyWorld_comp]
          · intro hnex
            have hnc : ¬s0.Reach c k := fun hr => hnex ⟨c, by simp, hr⟩
            have hnt : ¬∃ d ∈ t, s2.Reach d k := by
              rw [hreach2]
              rintro ⟨d, hd, hrd⟩
              exact hnex ⟨d, by simp [hd], hrd⟩
            rw [hrest.2 hnt, (hspec2 k).2 hnc]
      have hmain := hfold o.child_ids s1 hrank1 hcrank j
      constructor
      · intro hr
        rcases Scene.reach_head_cases hr with hjid | ⟨c, hc, hrc⟩
        · subst hjid
          by_cases hex : ∃ c ∈ o.child_ids, s1.Reach c j
          · rw [hmain.1 hex, hs1id, h]
            simp [Object3D.dirtyWorld_idem]
          · rw [hmain.2 hex, hs1id, h]
            rfl
        · rw [hcs] at hc
          have hex : ∃ d ∈ o.child_ids, s1.Reach d j := by
            rw [hreach1]
            exact ⟨c, hc, hrc⟩
          rw [hmain.1 hex]
          by_cases hjid : j = id
          · subst hjid
            rw [hs1id, h]
            simp [Object3D.dirtyWorld_idem]
          · rw [hs1ne j hjid]
      · intro hnr
        have hjid : j ≠ id := fun hh => hnr (hh ▸ Relation.ReflTransGen.refl)
        have hnex : ¬∃ c ∈ o.child_ids, s1.Reach c j := by
          rw [hreach1]
          rintro ⟨c, hc, hrc⟩
          exact hnr (Scene.reach_of_child (by rw [hcs]; exact hc) hrc)
        rw [hmain.2 hnex, hs1ne j hjid]

theorem worldDirtyAt_set {s : Scene} {l : List Object3D} {i : ℕ}
    {o o' : Object3D} (hl : l = s.objects) (h : s.objects[i]? = some o)
    (ht : o'.transform.world_dirty = o.transform.world_dirty) (j : ℕ) :
    worldDirtyAt { s with objects := l.set i o' } j = worldDirtyAt s j := by
  subst hl
  rw [worldDirtyAt, worldDirtyAt]
  by_cases hj : j = i
  · subst hj
    show (s.objects.set j o')[j]?.map _ = _
    rw [List.getElem?_set_self', h]
    simp [ht]
  · show (s.objects.set i o')[j]?.map _ = _
    rw [List.getElem?_set_ne (fun hh => hj hh.symm)]

theorem unlink_old_frame (s : Scene) (child_id : ℕ) :
    (s.set_object_parent_unlink_old child_id).objects.length =
        s.objects.length ∧
      ∀ j : ℕ, worldDirtyAt (s.set_object_parent_unlink_old child_id) j =
        worldDirtyAt s j := by
  cases h1 : s.objects[child_id]? with
  | none =>
    simp only [Scene.set_object_parent_unlink_old, h1]
    exact ⟨trivial, fun _ => trivial⟩
  | some child =>
    cases h2 : child.parent_id with
    | none =>
      simp only [Scene.set_object_parent_unlink_old, h1, h2]
      exact ⟨trivial, fun _ => trivial⟩
    | some old_parent_id =>
      cases h3 : s.objects[old_parent_id]? with
      | none =>
        simp only [Scene.set_object_parent_unlink_old, h1, h2, h3]
        exact ⟨trivial, fun _ => trivial⟩
      | some old_parent =>
        simp only [Scene.set_object_parent_unlink_old, h1, h2, h3]
        refine ⟨by simp, fun j => ?_⟩
        refine worldDirtyAt_set rfl h3 ?_ j
        rfl

theorem relink_frame (s : Scene) (child_id : ℕ) (np : Option ℕ) :
    (s.set_object_parent_relink child_id np).objects.length =
        s.objects.length ∧
      ∀ j : ℕ, worldDirtyAt (s.set_object_parent_relink child_id np) j =
        worldDirtyAt s j := by
  obtain ⟨hl1, hw1⟩ := unlink_old_frame s child_id
  set s1 := s.set_object_parent_unlink_old child_id with hs1
  cases h1 : s1.objects[child_id]? with
  | none =>
    simp only [Scene.set_object_parent_relink, ← hs1, h1]
    exact ⟨hl1, hw1⟩
  | some child =>
    simp only [Scene.set_object_parent_relink, ← hs1, h1]
    set objs2 := s1.objects.set child_id ({ child with parent_id := np })
      with hobjs2
    set s2 : Scene := { s1 with objects := objs2 } with hs2
    have hl2 : s2.objects.length = s.objects.length := by
      rw [hs2, hobjs2]
      simpa using hl1
    have hw2 : ∀ j : ℕ, worldDirtyAt s2 j = worldDirtyAt s j := by
      intro j
      rw [hs2, hobjs2]
      refine Eq.trans (worldDirtyAt_set rfl h1 ?_ j) (hw1 j)
      rfl
    cases np with
    | none => exact ⟨hl2, hw2⟩
    | some npid =>
      cases h4 : s2.objects[npid]? with
      | none =>
        simp only [h4]
        exact ⟨hl2, hw2⟩
      | some new_parent =>
        simp only [h4]
        refine ⟨by simpa using hl2, fun j => ?_⟩
        refine Eq.trans (worldDirtyAt_set rfl h4 ?_ j) (hw2 j)
        rfl

/-- Lengths and world-dirty flags before the invalidation step of each
Scene mutation: the arena size never changes, and no flag other than the
mutated object's own changes. -/
theorem applyPre_frame (m : SceneMutation) (s : Scene) (id : ℕ) :
    (m.applyPre s id).objects.length = s.objects.length ∧
      ∀ j : ℕ, j ≠ id →
        worldDirtyAt (m.applyPre s id) j = worldDirtyAt s j := by
  cases m with
  | parentOf np =>
    obtain ⟨hl, hw⟩ := relink_frame s id np
    exact ⟨hl, fun j _ => hw j⟩
  | translationOf v =>
    rw [SceneMutation.applyPre, Scene.set_object_translation_mut]
    cases h : s.objects[id]? with
    | none => exact ⟨rfl, fun j _ => rfl⟩
    | some o =>
      refine ⟨by simp, fun j hj => ?_⟩
      rw [worldDirtyAt, worldDirtyAt]
      show (s.objects.set id _)[j]?.map _ = _
      rw [List.getElem?_set_ne (fun hh => hj hh.symm)]
  | rotationOf q =>
    rw [SceneMutation.applyPre, Scene.set_object_rotation_mut]
    cases h : s.objects[id]? with
    | none => exact ⟨rfl, fun j _ => rfl⟩
    | some o =>
      refine ⟨by simp, fun j hj => ?_⟩
      rw [worldDirtyAt, worldDirtyAt]
      show (s.objects.set id _)[j]?.map _ = _
      rw [List.getElem?_set_ne (fun hh => hj hh.symm)]
  | scaleOf c =>
    rw [SceneMutation.applyPre, Scene.set_object_scale_mut]
    cases h : s.objects[id]? with
    | none => exact ⟨rfl, fun j _ => rfl⟩
    | some o =>
      refine ⟨by simp, fun j hj => ?_⟩
      rw [worldDirtyAt, worldDirtyAt]
      show (s.objects.set id _)[j]?.map _ = _
      rw [List.getElem?_set_ne (fun hh => hj hh.symm)]
  | transformOf v q c =>
    rw [SceneMutation.applyPre, Scene.set_object_transform_mut]
    cases h : s.objects[id]? with
    | none => exact ⟨rfl, fun j _ => rfl⟩
    | some o =>
      refine ⟨by simp, fun j hj => ?_⟩
      rw [worldDirtyAt, worldDirtyAt]
      show (s.objects.set id _)[j]?.map _ = _
      rw [List.getElem?_set_ne (fun hh => hj hh.symm)]

theorem applyMut_eq_invalidate (m : SceneMutation) (s : Scene) (id : ℕ) :
    m.applyMut s id = (m.applyPre s id).invalidate_object_hierarchy id := by
  cases m <;> rfl

theorem list_set_self {α : Type} {l : List α} {i : ℕ} {a : α}
    (h : l[i]? = some a) : l.set i a = l := by
  induction l generalizing i with
  | nil => simp at h
  | cons x xs ih =>
    cases i with
    | zero =>
      simp only [List.getElem?_cons_zero, Option.some.injEq] at h
      rw [List.set_cons_zero, h]
    | succ n =>
      simp only [List.getElem?_cons_succ] at h
      rw [List.set_cons_succ, ih h]

theorem Scene.childIdsAt_mem_lt {s : Scene} {i c : ℕ}
    (h : c ∈ s.childIdsAt i) : i < s.objects.length := by
  rw [Scene.childIdsAt] at h
  cases hh : s.objects[i]? with
  | none =>
    rw [hh] at h
    exact absurd h (List.not_mem_nil c)
  | some o => exact getElem?_some_lt hh

theorem Scene.reach_rank {s : Scene} {rank : ℕ → ℕ} (hrank : s.RankOk rank)
    {a b : ℕ} (h : s.Reach a b) : b = a ∨ rank b < rank a := by
  induction h with
  | refl => exact Or.inl rfl
  | tail hab hbc ih =>
    rename_i m c
    have hmc : c ∈ s.childIdsAt m := hbc
    have hlt : rank c < rank m :=
      hrank m (Scene.childIdsAt_mem_lt hmc) c hmc
    rcases ih with hba | hba
    · subst hba
      exact Or.inr hlt
    · exact Or.inr (hlt.trans hba)

theorem Scene.UpdFrame.upd_of_eq {s t : Scene} (h : t = s) : s.UpdFrame t := by
  subst h
  exact ⟨rfl, rfl, fun j => rfl, fun j o1 h1 hd => ⟨o1, h1, hd⟩⟩

theorem Scene.UpdFrame.upd_trans {s t u : Scene} (h1 : s.UpdFrame t)
    (h2 : t.UpdFrame u) : s.UpdFrame u := by
  obtain ⟨hm1, hl1, hs1, hd1⟩ := h1
  obtain ⟨hm2, hl2, hs2, hd2⟩ := h2
  refine ⟨hm2.trans hm1, hl2.trans hl1,
    fun j => (hs2 j).trans (hs1 j), fun j o2 h2j hdirty => ?_⟩
  obtain ⟨o1, h1j, hd1j⟩ := hd2 j o2 h2j hdirty
  exact hd1 j o1 h1j hd1j

theorem Scene.UpdFrame.objAt_pair {s t : Scene} (h : s.UpdFrame t) (j : ℕ) :
    (t.objects[j]? = none ∧ s.objects[j]? = none) ∨
      ∃ o1 o0, t.objects[j]? = some o1 ∧ s.objects[j]? = some o0 ∧
        o1.skel = o0.skel := by
  have hs := h.2.2.1 j
  cases ht : t.objects[j]? with
  | none =>
    cases hso : s.objects[j]? with
    | none => exact Or.inl ⟨rfl, rfl⟩
    | some o0 =>
      rw [ht, hso] at hs
      exact absurd hs (by simp)
  | some o1 =>
    cases hso : s.objects[j]? with
    | none =>
      rw [ht, hso] at hs
      exact absurd hs (by simp)
    | some o0 =>
      rw [ht, hso] at hs
      rw [Option.map_some', Option.map_some'] at hs
      exact Or.inr ⟨o1, o0, rfl, rfl, Option.some_inj.mp hs⟩

theorem Scene.UpdFrame.upd_childIdsAt_eq {s t : Scene} (h : s.UpdFrame t)
    (i : ℕ) : t.childIdsAt i = s.childIdsAt i := by
  rw [Scene.childIdsAt, Scene.childIdsAt]
  rcases h.objAt_pair i with ⟨h1, h0⟩ | ⟨o1, o0, h1, h0, hsk⟩ <;>
    rw [h1, h0]
  exact congrArg (fun q => q.1) hsk

theorem Scene.UpdFrame.upd_parentIdAt_eq {s t : Scene} (h : s.UpdFrame t)
    (i : ℕ) : t.parentIdAt i = s.parentIdAt i := by
  rw [Scene.parentIdAt, Scene.parentIdAt]
  rcases h.objAt_pair i with ⟨h1, h0⟩ | ⟨o1, o0, h1, h0, hsk⟩ <;>
    rw [h1, h0]
  exact congrArg (fun q => q.2.1) hsk

theorem Scene.UpdFrame.reach_eq {s t : Scene} (h : s.UpdFrame t) :
    t.Reach = s.Reach :=
  Scene.reach_eq_of_childIdsAt_eq h.upd_childIdsAt_eq

theorem Scene.UpdFrame.upd_rankOk {s t : Scene} {rank : ℕ → ℕ}
    (h : s.UpdFrame t) (hr : s.RankOk rank) : t.RankOk rank := by
  intro i hi c hc
  rw [h.2.1] at hi
  rw [h.upd_childIdsAt_eq] at hc
  exact hr i hi c hc

theorem Scene.UpdFrame.parentChildLinked {s t : Scene} (h : s.UpdFrame t)
    (hp : s.ParentChildLinked) : t.ParentChildLinked := by
  intro i hi
  rw [h.2.1] at hi
  rw [h.upd_parentIdAt_eq]
  have hpc := hp i hi
  cases hpi : s.parentIdAt i with
  | none => exact trivial
  | some p =>
    rw [hpi] at hpc
    have hpc2 : p < s.objects.length ∧ i ∈ s.childIdsAt p := hpc
    show p < t.objects.length ∧ i ∈ t.childIdsAt p
    rw [h.2.1, h.upd_childIdsAt_eq]
    exact hpc2

theorem Scene.UpdFrame.childParentLinked {s t : Scene} (h : s.UpdFrame t)
    (hp : s.ChildParentLinked) : t.ChildParentLinked := by
  intro i hi c hc
  rw [h.2.1] at hi
  rw [h.upd_childIdsAt_eq] at hc
  rw [h.2.1, h.upd_parentIdAt_eq]
  exact hp i hi c hc

theorem Object3D.trs_eq_of_skel {o1 o0 : Object3D} (h : o1.skel = o0.skel) :
    o1.transform.trsMatrix = o0.transform.trsMatrix := by
  rw [Object3D.skel, Object3D.skel] at h
  simp only [Prod.mk.injEq] at h
  obtain ⟨-, -, -, -, -, htr, hro, hsc⟩ := h
  rw [Transform.trsMatrix, Transform.trsMatrix, htr, hro, hsc]

theorem Scene.UpdFrame.trs_eq {s t : Scene} (h : s.UpdFrame t) {j : ℕ}
    {o1 o0 : Object3D} (h1 : t.objects[j]? = some o1)
    (h0 : s.objects[j]? = some o0) :
    o1.transform.trsMatrix = o0.transform.trsMatrix := by
  rcases h.objAt_pair j with ⟨hn, -⟩ | ⟨o1x, o0x, h1x, h0x, hsk⟩
  · rw [hn] at h1
    exact absurd h1 (by simp)
  · have e1 := Option.some_inj.mp (h1.symm.trans h1x)
    have e0 := Option.some_inj.mp (h0.symm.trans h0x)
    subst e1
    subst e0
    exact Object3D.trs_eq_of_skel hsk

theorem update_node_skel (o : Object3D) (pw : Mat4) :
    (Scene.update_object_transform_node o pw).skel = o.skel := by
  rw [Scene.update_object_transform_node]
  split
  · rw [Transform.get_local_matrix]
    by_cases hld : o.transform.local_dirty = true
    · rw [if_pos hld]
      rfl
    · rw [if_neg hld]
      rfl
  · rfl

theorem update_node_clean {o : Object3D} (pw : Mat4)
    (h : o.transform.world_dirty = false) :
    Scene.update_object_transform_node o pw = o := by
  simp [Scene.update_object_transform_node, Transform.is_world_dirty, h]

theorem update_node_dirty {o : Object3D} (pw : Mat4)
    (h : o.transform.world_dirty = true)
    (hloc : o.transform.local_dirty = false →
      o.transform.local_matrix = o.transform.trsMatrix) :
    Scene.update_object_transform_node o pw =
      { o with transform :=
          { o.transform with
              local_matrix := o.transform.trsMatrix,
              local_dirty := false,
              world_matrix := pw.mul o.transform.trsMatrix,
              world_dirty := false,
              has_changed_since_last_update := true,
              inverse_transpose_world_matrix :=
                (pw.mul o.transform.trsMatrix).inverse.transpose } } := by
  by_cases hld : o.transform.local_dirty = true
  · simp [Scene.update_object_transform_node, Transform.is_world_dirty, h,
      Transform.get_local_matrix, hld, Transform.set_world_matrix,
      Transform.invalidate_world, Transform.trsMatrix]
  · have hlm := hloc (by simpa using hld)
    simp [Scene.update_object_transform_node, Transform.is_world_dirty, h,
      Transform.get_local_matrix, hld, Transform.set_world_matrix,
      Transform.invalidate_world, hlm]

theorem update_node_child_ids (o : Object3D) (pw : Mat4) :
    (Scene.update_object_transform_node o pw).child_ids = o.child_ids := by
  have := update_node_skel o pw
  exact congrArg (fun q => q.1) this

theorem update_node_dirty_mono {o : Object3D} (pw : Mat4)
    (h : (Scene.update_object_transform_node o pw).transform.world_dirty =
      true) : o.transform.world_dirty = true := by
  by_cases hw : o.transform.world_dirty = true
  · exact hw
  · rw [update_node_clean pw (by simpa using hw)] at h
    exact h

/-- The propagation walk preserves every skeleton and never dirties a
world flag; outside the visited subtree it changes nothing at all. -/
theorem update_rec_frame (fuel : ℕ) (s : Scene) (id : ℕ) (pw : Mat4) :
    s.UpdFrame (Scene.update_object_transform_recursive fuel s id pw) ∧
      ∀ j : ℕ, ¬s.Reach id j →
        (Scene.update_object_transform_recursive fuel s id pw).objects[j]? =
          s.objects[j]? := by
  induction fuel generalizing s id pw with
  | zero => exact ⟨Scene.UpdFrame.upd_of_eq rfl, fun j _ => rfl⟩
  | succ fuel ih =>
    cases h : s.objects[id]? with
    | none =>
      simp only [Scene.update_object_transform_recursive, h]
      exact ⟨Scene.UpdFrame.upd_of_eq rfl, fun j _ => trivial⟩
    | some o =>
      simp only [Scene.update_object_transform_recursive, h]
      set o1 := Scene.update_object_transform_node o pw with ho1
      set objs1 := s.objects.set id o1 with hobjs1
      set s1 : Scene := { s with objects := objs1 } with hs1
      have hs1id : s1.objects[id]? = some o1 := by
        rw [hs1, hobjs1]
        show (s.objects.set id o1)[id]? = some o1
        rw [List.getElem?_set_self', h]
        rfl
      have hs1ne : ∀ k, k ≠ id → s1.objects[k]? = s.objects[k]? := by
        intro k hk
        rw [hs1, hobjs1]
        exact List.getElem?_set_ne (fun hh => hk hh.symm)
      have hframe1 : s.UpdFrame s1 := by
        refine ⟨rfl, by simp [hs1, hobjs1], fun k => ?_, fun k ok hok hd => ?_⟩
        · by_cases hk : k = id
          · subst hk
            rw [hs1id, h, Option.map_some', Option.map_some',
              ho1, update_node_skel]
          · rw [hs1ne k hk]
        · by_cases hk : k = id
          · subst hk
            rw [hs1id] at hok
            cases hok
            refine ⟨o, h, ?_⟩
            exact update_node_dirty_mono pw (ho1 ▸ hd)
          · rw [hs1ne k hk] at hok
            exact ⟨ok, hok, hd⟩
      have hfold : ∀ (cs : List ℕ) (s0 : Scene) (wm : Mat4),
          s0.UpdFrame (cs.foldl
            (fun acc child_id =>
              Scene.update_object_transform_recursive fuel acc child_id wm)
            s0) ∧
          ∀ j : ℕ, (¬∃ c ∈ cs, s0.Reach c j) →
            (cs.foldl
              (fun acc child_id =>
                Scene.update_object_transform_recursive fuel acc child_id wm)
              s0).objects[j]? = s0.objects[j]? := by
        intro cs
        induction cs with
        | nil => exact fun s0 wm => ⟨Scene.UpdFrame.upd_of_eq rfl, fun j _ => rfl⟩
        | cons c t iht =>
          intro s0 wm
          set s2 := Scene.update_object_transform_recursive fuel s0 c wm
            with hs2
          obtain ⟨hf2, hu2⟩ := ih s0 c wm
          obtain ⟨hfr, hur⟩ := iht s2 wm
          rw [← hs2] at hf2 hu2
          refine ⟨?_, ?_⟩
          · simp only [List.foldl_cons, ← hs2]
            exact hf2.upd_trans hfr
          · intro j hj
            simp only [List.foldl_cons, ← hs2]
            have hnc : ¬s0.Reach c j := fun hr => hj ⟨c, by simp, hr⟩
            have hnt : ¬∃ d ∈ t, s2.Reach d j := by
              rw [hf2.reach_eq]
              rintro ⟨d, hd, hrd⟩
              exact hj ⟨d, by simp [hd], hrd⟩
            rw [hur j hnt, hu2 j hnc]
      obtain ⟨hffold, hufold⟩ := hfold o1.child_ids s1
        o1.transform.get_world_matrix
      refine ⟨hframe1.upd_trans hffold, fun j hj => ?_⟩
      have hjid : j ≠ id := fun hh => hj (hh ▸ Relation.ReflTransGen.refl)
      have hcids : o1.child_ids = s.childIdsAt id := by
        rw [ho1, update_node_child_ids, Scene.childIdsAt, h]
      have hnex : ¬∃ c ∈ o1.child_ids, s1.Reach c j := by
        rw [hframe1.reach_eq]
        rintro ⟨c, hc, hrc⟩
        rw [hcids] at hc
        exact hj (Scene.reach_of_child hc hrc)
      rw [hufold j hnex, hs1ne j hjid]

theorem update_node_parent_id (o : Object3D) (pw : Mat4) :
    (Scene.update_object_transform_node o pw).parent_id = o.parent_id :=
  congrArg (fun q => q.2.1) (update_node_skel o pw)

theorem Scene.parentIdAt_of_some {s : Scene} {i : ℕ} {o : Object3D}
    (h : s.objects[i]? = some o) : s.parentIdAt i = o.parent_id := by
  rw [Scene.parentIdAt, h]

theorem Scene.childIdsAt_of_some {s : Scene} {i : ℕ} {o : Object3D}
    (h : s.objects[i]? = some o) : s.childIdsAt i = o.child_ids := by
  rw [Scene.childIdsAt, h]

theorem getElem?_lt_some {α : Type} {l : List α} {i : ℕ}
    (h : i < l.length) : ∃ a, l[i]? = some a := by
  cases hh : l[i]? with
  | none =>
    rw [List.getElem?_eq_none_iff] at hh
    omega
  | some a => exact ⟨a, rfl⟩

/-- Core correctness of the propagation walk: on a well-formed, coherent
scene, called with a correct parent world matrix and enough fuel, it
preserves coherence and leaves the whole visited subtree world-clean. -/
theorem update_rec_spec (rank : ℕ → ℕ) (fuel : ℕ) :
    ∀ (s : Scene) (id : ℕ) (pw : Mat4),
      s.RankOk rank → s.ParentChildLinked → s.ChildParentLinked →
      s.Coherent → s.PwOk id pw →
      (rank id < fuel ∨ s.objects[id]? = none) →
      (Scene.update_object_transform_recursive fuel s id pw).Coherent ∧
      ∀ j : ℕ, s.Reach id j → ∀ ox,
        (Scene.update_object_transform_recursive fuel s id pw).objects[j]? =
          some ox →
        ox.transform.world_dirty = false := by
  induction fuel with
  | zero =>
    intro s id pw _ _ _ hcoh _ hfuel
    have hnone : s.objects[id]? = none := by
      rcases hfuel with hf | hf
      · omega
      · exact hf
    refine ⟨hcoh, fun j hr ox hox => ?_⟩
    rw [Scene.reach_dangling hnone hr] at hox
    rw [show Scene.update_object_transform_recursive 0 s id pw = s from rfl,
      hnone] at hox
    exact absurd hox (by simp)
  | succ fuel ih =>
    intro s id pw hrank hpcl hcpl hcoh hpw hfuel
    obtain ⟨hloc, hldw, hdd, hwc⟩ := hcoh
    cases h : s.objects[id]? with
    | none =>
      refine ⟨?_, fun j hr ox hox => ?_⟩
      · simp only [Scene.update_object_transform_recursive, h]
        exact ⟨hloc, hldw, hdd, hwc⟩
      · rw [Scene.reach_dangling h hr] at hox
        simp only [Scene.update_object_transform_recursive, h] at hox
        exact absurd hox (by simp)
    | some o =>
      have hidlt : id < s.objects.length := getElem?_some_lt h
      have hrankid : rank id < fuel + 1 := by
        rcases hfuel with hf | hf
        · exact hf
        · rw [h] at hf
          exact absurd hf (by simp)
      -- facts about the object at `id`
      have hloc_id : o.transform.local_dirty = false →
          o.transform.local_matrix = o.transform.trsMatrix := by
        have hx := hloc id hidlt
        rw [h] at hx
        exact hx
      have hpid : s.parentIdAt id = o.parent_id := Scene.parentIdAt_of_some h
      have hcids : s.childIdsAt id = o.child_ids := Scene.childIdsAt_of_some h
      -- facts about the updated node
      set o1 := Scene.update_object_transform_node o pw with ho1
      have ho1sk : o1.skel = o.skel := by
        rw [ho1]
        exact update_node_skel o pw
      have ho1cids : o1.child_ids = o.child_ids := by
        rw [ho1]
        exact update_node_child_ids o pw
      have ho1pid : o1.parent_id = o.parent_id := by
        rw [ho1]
        exact update_node_parent_id o pw
      have ho1trs : o1.transform.trsMatrix = o.transform.trsMatrix :=
        Object3D.trs_eq_of_skel ho1sk
      have hparent_fact : ∀ p, o.parent_id = some p →
          ∃ po, s.objects[p]? = some po ∧ pw = po.transform.world_matrix ∧
            po.transform.world_dirty = false ∧ p ≠ id := by
        intro p hp
        have hx := hpcl id hidlt
        rw [hpid, hp] at hx
        have hx2 : p < s.objects.length ∧ id ∈ s.childIdsAt p := hx
        obtain ⟨po, hpo⟩ := getElem?_lt_some hx2.1
        have hppw := hpw
        rw [Scene.PwOk, hpid, hp] at hppw
        have hppw2 : OptHolds s.objects[p]?
            (fun q => pw = q.transform.world_matrix ∧
              q.transform.world_dirty = false) := hppw
        rw [hpo] at hppw2
        refine ⟨po, hpo, hppw2.1, hppw2.2, fun hpe => ?_⟩
        refine absurd (hrank p hx2.1 id hx2.2) ?_
        rw [hpe]
        omega
      have ho1main : o1.transform.world_dirty = false ∧
          o1.transform.world_matrix = pw.mul o.transform.trsMatrix ∧
          o1.transform.local_dirty = false ∧
          o1.transform.local_matrix = o.transform.trsMatrix := by
        by_cases hwd : o.transform.world_dirty = true
        · have hdef := update_node_dirty pw hwd hloc_id
          rw [ho1, hdef]
          exact ⟨rfl, rfl, rfl, rfl⟩
        · have hwdf : o.transform.world_dirty = false := by simpa using hwd
          have hdef := update_node_clean pw hwdf
          rw [ho1, hdef]
          have hldf : o.transform.local_dirty = false := by
            have hx := hldw id hidlt
            rw [h] at hx
            by_cases hld : o.transform.local_dirty = true
            · exact absurd (hx hld) (by simp [hwdf])
            · simpa using hld
          have hwcid := hwc id hidlt
          rw [h] at hwcid
          have hwcid2 := hwcid hwdf
          refine ⟨hwdf, ?_, hldf, hloc_id hldf⟩
          cases hp : o.parent_id with
          | none =>
            rw [hp] at hwcid2
            have hppw := hpw
            rw [Scene.PwOk, hpid, hp] at hppw
            have hpwid : pw = Mat4.identity := hppw
            rw [hpwid, Mat4.identity_mul]
            exact hwcid2
          | some p =>
            obtain ⟨po, hpo, hpwpo, hpoclean, hpne⟩ := hparent_fact p hp
            rw [hp] at hwcid2
            have hwcid3 : OptHolds s.objects[p]?
                (fun q => o.transform.world_matrix =
                  q.transform.world_matrix.mul o.transform.trsMatrix) :=
              hwcid2
            rw [hpo] at hwcid3
            rw [hpwpo]
            exact hwcid3
      obtain ⟨ho1clean, ho1world, ho1ld, ho1lm⟩ := ho1main
      -- the scene after the node update
      simp only [Scene.update_object_transform_recursive, h]
      rw [← ho1]
      set objs1 := s.objects.set id o1 with hobjs1
      set s1 : Scene := { s with objects := objs1 } with hs1
      have hs1id : s1.objects[id]? = some o1 := by
        rw [hs1, hobjs1]
        show (s.objects.set id o1)[id]? = some o1
        rw [List.getElem?_set_self', h]
        rfl
      have hs1ne : ∀ k, k ≠ id → s1.objects[k]? = s.objects[k]? := by
        intro k hk
        rw [hs1, hobjs1]
        exact List.getElem?_set_ne (fun hh => hk hh.symm)
      have hlen1 : s1.objects.length = s.objects.length := by
        simp [hs1, hobjs1]
      have hframe1 : s.UpdFrame s1 := by
        refine ⟨rfl, hlen1, fun k => ?_, fun k ok hok hd => ?_⟩
        · by_cases hk : k = id
          · subst hk
            rw [hs1id, h, Option.map_some', Option.map_some', ho1sk]
          · rw [hs1ne k hk]
        · by_cases hk : k = id
          · subst hk
            rw [hs1id] at hok
            cases hok
            exact absurd hd (by simp [ho1clean])
          · rw [hs1ne k hk] at hok
            exact ⟨ok, hok, hd⟩
      -- coherence of the intermediate scene
      have hcoh1 : s1.Coherent := by
        refine ⟨?_, ?_, ?_, ?_⟩
        · -- LocalCoherent
          intro i hi
          rw [hlen1] at hi
          by_cases hk : i = id
          · subst hk
            rw [hs1id]
            intro _
            rw [ho1lm, ho1trs]
          · rw [hs1ne i hk]
            exact hloc i hi
        · -- LocalDirtyWorldDirty
          intro i hi
          by_cases hk : i = id
          · subst hk
            rw [hs1id]
            intro hx
            exact absurd hx (by simp [ho1ld])
          · rw [hs1ne i hk]
            exact hldw i (by rw [hlen1] at hi; exact hi)
        · -- DirtyDownwardClosed
          intro i hi
          rw [hlen1] at hi
          by_cases hk : i = id
          · subst hk
            rw [hs1id]
            intro hx
            exact absurd hx (by simp [ho1clean])
          · rw [hs1ne i hk]
            cases hoi : s.objects[i]? with
            | none => exact trivial
            | some oi =>
              intro hdi c hc
              by_cases hcid : c = id
              · subst hcid
                have hcpli := hcpl i hi c (by
                  rw [Scene.childIdsAt_of_some hoi]
                  exact hc)
                obtain ⟨po, hpo, hpwpo, hpoclean, -⟩ :=
                  hparent_fact i (by rw [← hpid, hcpli.2])
                rw [hpo] at hoi
                cases hoi
                exact absurd hdi (by simp [hpoclean])
              · rw [hs1ne c hcid]
                have hx := hdd i hi
                rw [hoi] at hx
                exact hx hdi c hc
        · -- WorldCleanCoherent
          intro i hi
          rw [hlen1] at hi
          by_cases hk : i = id
          · subst hk
            rw [hs1id]
            intro _
            rw [ho1pid]
            cases hp : o.parent_id with
            | none =>
              have hppw := hpw
              rw [Scene.PwOk, hpid, hp] at hppw
              have hpwid : pw = Mat4.identity := hppw
              show o1.transform.world_matrix = o1.transform.trsMatrix
              rw [ho1world, ho1trs, hpwid, Mat4.identity_mul]
            | some p =>
              obtain ⟨po, hpo, hpwpo, hpoclean, hpne⟩ := hparent_fact p hp
              show OptHolds s1.objects[p]?
                (fun q => o1.transform.world_matrix =
                  q.transform.world_matrix.mul o1.transform.trsMatrix)
              rw [hs1ne p hpne, hpo]
              show o1.transform.world_matrix =
                po.transform.world_matrix.mul o1.transform.trsMatrix
              rw [ho1world, ho1trs, hpwpo]
          · rw [hs1ne i hk]
            cases hoi : s.objects[i]? with
            | none => exact trivial
            | some oi =>
              intro hclean
              have hx := hwc i hi
              rw [hoi] at hx
              have hx2 := hx hclean
              cases hp : oi.parent_id with
              | none =>
                rw [hp] at hx2
                exact hx2
              | some p =>
                rw [hp] at hx2
                by_cases hpk : p = id
                · rw [hpk] at hx2 ⊢
                  have hx3 : OptHolds s.objects[id]?
                      (fun q => oi.transform.world_matrix =
                        q.transform.world_matrix.mul oi.transform.trsMatrix) :=
                    hx2
                  rw [h] at hx3
                  have hx4 : oi.transform.world_matrix =
                      o.transform.world_matrix.mul oi.transform.trsMatrix :=
                    hx3
                  -- `o` must be clean here: `i` is a child of `id`
                  have hipcl := hpcl i hi
                  rw [Scene.parentIdAt_of_some hoi, hp, hpk] at hipcl
                  have hipcl2 : id < s.objects.length ∧
                      i ∈ s.childIdsAt id := hipcl
                  have hddx := hdd id hidlt
                  rw [h] at hddx
                  by_cases hwd : o.transform.world_dirty = true
                  · have hy := hddx hwd i (by rw [← hcids]; exact hipcl2.2)
                    rw [hoi] at hy
                    have hy2 : oi.transform.world_dirty = true := hy
                    exact absurd hclean (by simp [hy2])
                  · have hwdf : o.transform.world_dirty = false := by
                      simpa using hwd
                    have ho1eq : o1 = o := by
                      rw [ho1]
                      exact update_node_clean pw hwdf
                    show OptHolds s1.objects[id]?
                      (fun q => oi.transform.world_matrix =
                        q.transform.world_matrix.mul oi.transform.trsMatrix)
                    rw [hs1id]
                    show oi.transform.world_matrix =
                      o1.transform.world_matrix.mul oi.transform.trsMatrix
                    rw [ho1eq]
                    exact hx4
                · show OptHolds s1.objects[p]?
                    (fun q => oi.transform.world_matrix =
                      q.transform.world_matrix.mul oi.transform.trsMatrix)
                  rw [hs1ne p hpk]
                  exact hx2
      -- transported hypotheses
      have hrank1 : s1.RankOk rank := hframe1.upd_rankOk hrank
      have hpcl1 : s1.ParentChildLinked := hframe1.parentChildLinked hpcl
      have hcpl1 : s1.ChildParentLinked := hframe1.childParentLinked hcpl
      -- the fold over the children
      have hcsub : ∀ c ∈ o1.child_ids, c ∈ s.childIdsAt id := by
        intro c hc
        rw [hcids]
        rw [ho1cids] at hc
        exact hc
      have hcrank : ∀ c ∈ o1.child_ids, rank c < fuel := by
        intro c hc
        have := hrank id hidlt c (hcsub c hc)
        omega
      have hnotreach_id : ∀ (s0 : Scene) (c : ℕ), c ∈ o1.child_ids →
          (∀ i, s0.childIdsAt i = s.childIdsAt i) → ¬s0.Reach c id := by
        intro s0 c hc hch hr
        rw [Scene.reach_eq_of_childIdsAt_eq hch] at hr
        have hcr := hrank id hidlt c (hcsub c hc)
        rcases Scene.reach_rank hrank hr with he | hlt
        · rw [he] at hcr
          omega
        · omega
      have hfold : ∀ (cs : List ℕ) (s0 : Scene),
          (∀ c ∈ cs, c ∈ o1.child_ids) →
          s0.RankOk rank → s0.ParentChildLinked → s0.ChildParentLinked →
          s0.Coherent →
          (∀ c ∈ cs, s0.parentIdAt c = some id) →
          s0.objects[id]? = some o1 →
          (∀ i, s0.childIdsAt i = s.childIdsAt i) →
          (cs.foldl
            (fun acc child_id =>
              Scene.update_object_transform_recursive fuel acc child_id
                o1.transform.get_world_matrix) s0).Coherent ∧
          (∀ c ∈ cs, ∀ j : ℕ, s0.Reach c j → ∀ ox,
            (cs.foldl
              (fun acc child_id =>
                Scene.update_object_transform_recursive fuel acc child_id
                  o1.transform.get_world_matrix) s0).objects[j]? = some ox →
            ox.transform.world_dirty = false) ∧
          s0.UpdFrame (cs.foldl
            (fun acc child_id =>
              Scene.update_object_transform_recursive fuel acc child_id
                o1.transform.get_world_matrix) s0) := by
        intro cs
        induction cs with
        | nil =>
          intro s0 _ _ _ _ hc0 _ _ _
          exact ⟨hc0, fun c hc => absurd hc (List.not_mem_nil c),
            Scene.UpdFrame.upd_of_eq rfl⟩
        | cons c t iht =>
          intro s0 hmem hr0 hp0 hq0 hc0 hpar0 hid0 hch0
          have hpw0 : s0.PwOk c o1.transform.get_world_matrix := by
            rw [Scene.PwOk, hpar0 c (by simp)]
            show OptHolds s0.objects[id]? _
            rw [hid0]
            exact ⟨rfl, ho1clean⟩
          obtain ⟨hcoh2, hclean2⟩ := ih s0 c o1.transform.get_world_matrix
            hr0 hp0 hq0 hc0 hpw0 (Or.inl (hcrank c (hmem c (by simp))))
          set s2 := Scene.update_object_transform_recursive fuel s0 c
            o1.transform.get_world_matrix with hs2
          obtain ⟨hf2, hu2⟩ := update_rec_frame fuel s0 c
            o1.transform.get_world_matrix
          rw [← hs2] at hf2 hu2
          have hch2 : ∀ i, s2.childIdsAt i = s.childIdsAt i := by
            intro i
            rw [hf2.upd_childIdsAt_eq, hch0]
          have hid2 : s2.objects[id]? = some o1 := by
            rw [hu2 id (hnotreach_id s0 c (hmem c (by simp)) hch0), hid0]
          have hpar2 : ∀ d ∈ t, s2.parentIdAt d = some id := by
            intro d hd
            rw [hf2.upd_parentIdAt_eq, hpar0 d (by simp [hd])]
          obtain ⟨hcohr, hcleanr, hfr⟩ := iht s2
            (fun d hd => hmem d (by simp [hd])) (hf2.upd_rankOk hr0)
            (hf2.parentChildLinked hp0) (hf2.childParentLinked hq0)
            hcoh2 hpar2 hid2 hch2
          simp only [List.foldl_cons, ← hs2]
          refine ⟨hcohr, ?_, hf2.upd_trans hfr⟩
          intro cx hcx j hrj ox hox
          rcases List.mem_cons.mp hcx with hceq | hct
          · subst hceq
            -- cleaned at this step; later steps never dirty
            by_cases hdx : ox.transform.world_dirty = true
            · obtain ⟨oy, hoy, hdy⟩ := hfr.2.2.2 j ox hox hdx
              have := hclean2 j hrj oy hoy
              rw [this] at hdy
              exact absurd hdy (by simp)
            · simpa using hdx
          · have hrj2 : s2.Reach cx j := by
              rw [hf2.reach_eq]
              exact hrj
            exact hcleanr cx hct j hrj2 ox hox
      have hpar1 : ∀ c ∈ o1.child_ids, s1.parentIdAt c = some id := by
        intro c hc
        rw [hframe1.upd_parentIdAt_eq]
        exact (hcpl id hidlt c (hcsub c hc)).2
      have hch1 : ∀ i, s1.childIdsAt i = s.childIdsAt i :=
        hframe1.upd_childIdsAt_eq
      obtain ⟨hcohF, hcleanF, hfF⟩ := hfold o1.child_ids s1
        (fun c hc => hc) hrank1 hpcl1 hcpl1 hcoh1 hpar1 hs1id hch1
      refine ⟨hcohF, fun j hr ox hox => ?_⟩
      rcases Scene.reach_head_cases hr with hjid | ⟨c, hc, hrc⟩
      · subst hjid
        by_cases hdx : ox.transform.world_dirty = true
        · obtain ⟨oy, hoy, hdy⟩ := hfF.2.2.2 j ox hox hdx
          rw [hs1id] at hoy
          cases hoy
          exact absurd hdy (by simp [ho1clean])
        · simpa using hdx
      · rw [hcids, ← ho1cids] at hc
        have hrc1 : s1.Reach c j := by
          rw [hframe1.reach_eq]
          exact hrc
        exact hcleanF c hc j hrc1 ox hox

/-- `update_transforms` (the `late_update` pass) keeps the scene coherent
and leaves the subtree of every root world-clean. -/
theorem update_transforms_spec (rank : ℕ → ℕ) (s : Scene)
    (hrank : s.RankOk rank) (hbound : s.RankBounded rank)
    (hpcl : s.ParentChildLinked) (hcpl : s.ChildParentLinked)
    (hcoh : s.Coherent) :
    (s.update_transforms).Coherent ∧ s.UpdFrame s.update_transforms ∧
      ∀ r, s.parentIdAt r = none → r < s.objects.length →
        ∀ j : ℕ, s.Reach r j → ∀ ox,
          (s.update_transforms).objects[j]? = some ox →
          ox.transform.world_dirty = false := by
  have haux : ∀ (rs : List ℕ) (s0 : Scene),
      (∀ r ∈ rs, s0.parentIdAt r = none ∧ r < s.objects.length) →
      s0.RankOk rank → s0.ParentChildLinked → s0.ChildParentLinked →
      s0.Coherent → s0.objects.length = s.objects.length →
      (rs.foldl
        (fun acc root_id =>
          Scene.update_object_transform_recursive acc.objects.length acc
            root_id Mat4.identity) s0).Coherent ∧
      s0.UpdFrame (rs.foldl
        (fun acc root_id =>
          Scene.update_object_transform_recursive acc.objects.length acc
            root_id Mat4.identity) s0) ∧
      ∀ r ∈ rs, ∀ j : ℕ, s0.Reach r j → ∀ ox,
        (rs.foldl
          (fun acc root_id =>
            Scene.update_object_transform_recursive acc.objects.length acc
              root_id Mat4.identity) s0).objects[j]? = some ox →
        ox.transform.world_dirty = false := by
    intro rs
    induction rs with
    | nil =>
      intro s0 _ _ _ _ hc0 _
      exact ⟨hc0, Scene.UpdFrame.upd_of_eq rfl,
        fun r hr => absurd hr (List.not_mem_nil r)⟩
    | cons r rs iht =>
      intro s0 hroots hr0 hp0 hq0 hc0 hlen0
      have hrinfo := hroots r (by simp)
      have hpw0 : s0.PwOk r Mat4.identity := by
        rw [Scene.PwOk, hrinfo.1]
        exact rfl
      have hfuel0 : rank r < s0.objects.length ∨ s0.objects[r]? = none := by
        refine Or.inl ?_
        rw [hlen0]
        exact hbound r hrinfo.2
      obtain ⟨hcoh2, hclean2⟩ := update_rec_spec rank s0.objects.length s0 r
        Mat4.identity hr0 hp0 hq0 hc0 hpw0 hfuel0
      set s2 := Scene.update_object_transform_recursive s0.objects.length s0
        r Mat4.identity with hs2
      obtain ⟨hf2, hu2⟩ := update_rec_frame s0.objects.length s0 r
        Mat4.identity
      rw [← hs2] at hf2 hu2
      have hroots2 : ∀ d ∈ rs, s2.parentIdAt d = none ∧
          d < s.objects.length := by
        intro d hd
        rw [hf2.upd_parentIdAt_eq]
        exact hroots d (by simp [hd])
      obtain ⟨hcohr, hfr, hcleanr⟩ := iht s2 hroots2 (hf2.upd_rankOk hr0)
        (hf2.parentChildLinked hp0) (hf2.childParentLinked hq0) hcoh2
        (hf2.2.1.trans hlen0)
      simp only [List.foldl_cons, ← hs2]
      refine ⟨hcohr, hf2.upd_trans hfr, ?_⟩
      intro rx hrx j hrj ox hox
      rcases List.mem_cons.mp hrx with hre | hrt
      · subst hre
        by_cases hdx : ox.transform.world_dirty = true
        · obtain ⟨oy, hoy, hdy⟩ := hfr.2.2.2 j ox hox hdx
          have := hclean2 j hrj oy hoy
          rw [this] at hdy
          exact absurd hdy (by simp)
        · simpa using hdx
      · have hrj2 : s2.Reach rx j := by
          rw [hf2.reach_eq]
          exact hrj
        exact hcleanr rx hrt j hrj2 ox hox
  have hroots : ∀ r ∈ (List.range s.objects.length).filter
      (fun id => (s.parentIdAt id).isNone && (s.objects[id]?).isSome),
      s.parentIdAt r = none ∧ r < s.objects.length := by
    intro r hr
    rw [List.mem_filter, List.mem_range] at hr
    obtain ⟨hlt, hpred⟩ := hr
    rw [Bool.and_eq_true] at hpred
    exact ⟨Option.isNone_iff_eq_none.mp hpred.1, hlt⟩
  obtain ⟨hcohF, hfF, hcleanF⟩ := haux
    ((List.range s.objects.length).filter
      (fun id => (s.parentIdAt id).isNone && (s.objects[id]?).isSome))
    s hroots hrank hpcl hcpl hcoh rfl
  refine ⟨hcohF, hfF, ?_⟩
  intro r hrn hrlt j hrj ox hox
  have hrmem : r ∈ (List.range s.objects.length).filter
      (fun id => (s.parentIdAt id).isNone && (s.objects[id]?).isSome) := by
    rw [List.mem_filter, List.mem_range]
    obtain ⟨a, ha⟩ := getElem?_lt_some hrlt
    refine ⟨hrlt, ?_⟩
    rw [Bool.and_eq_true, Option.isNone_iff_eq_none, hrn, ha]
    exact ⟨rfl, rfl⟩
  exact hcleanF r hrmem j hrj ox hox

/-- In a well-formed scene every object hangs under some root. -/
theorem root_covers (s : Scene) (rank : ℕ → ℕ) (hrank : s.RankOk rank)
    (hbound : s.RankBounded rank) (hpcl : s.ParentChildLinked) :
    ∀ i < s.objects.length, ∃ r, r < s.objects.length ∧
      s.parentIdAt r = none ∧ s.Reach r i := by
  have main : ∀ (n : ℕ) (i : ℕ), i < s.objects.length →
      s.objects.length - rank i ≤ n → ∃ r, r < s.objects.length ∧
        s.parentIdAt r = none ∧ s.Reach r i := by
    intro n
    induction n with
    | zero =>
      intro i hi hle
      exact absurd (hbound i hi) (by omega)
    | succ n ihn =>
      intro i hi hle
      cases hp : s.parentIdAt i with
      | none => exact ⟨i, hi, hp, Relation.ReflTransGen.refl⟩
      | some p =>
        have hx := hpcl i hi
        rw [hp] at hx
        have hx2 : p < s.objects.length ∧ i ∈ s.childIdsAt p := hx
        have hri : rank i < rank p := hrank p hx2.1 i hx2.2
        have hbp := hbound p hx2.1
        obtain ⟨r, hr1, hr2, hr3⟩ := ihn p hx2.1 (by omega)
        exact ⟨r, hr1, hr2, Relation.ReflTransGen.tail hr3 hx2.2⟩
  exact fun i hi => main s.objects.length i hi (by omega)

theorem Drawable.sizeBytes_eq : Drawable.sizeBytes = 80 := by decide

theorem capacityScene_gather_length (count : ℕ) :
    (gather_drawables_from_scene [] (capacityScene count)).length = count := by
  rw [gather_eq_flatMap]
  simp [capacityScene, drawablesForObject, Object3D.default]

/-! ## Claim theorems -/

/-- C2: for every frustum, world matrix and AABB, if every transformed box
corner is at non-negative signed distance to every plane the culling test
reports the drawable visible, and if some plane has every transformed
corner at negative signed distance it reports the drawable not visible. -/
theorem culling_inside_visible_outside_culled (b : AABB) (frustum : Frustum)
    (transform : Mat4) :
    ((∀ plane ∈ frustum.planes, ∀ corner ∈ b.corners,
        0 ≤ plane.signed_distance_to_point (transform.transform_point3 corner)) →
      b.intersects_frustum_transformed frustum transform = true) ∧
    ((∃ plane ∈ frustum.planes, ∀ corner ∈ b.corners,
        plane.signed_distance_to_point (transform.transform_point3 corner) < 0) →
      b.intersects_frustum_transformed frustum transform = false) := by
  constructor
  · intro h
    refine intersects_of_corner_inside b frustum transform ?_
    intro plane hplane
    refine ⟨⟨b.min.x, b.min.y, b.min.z⟩, ?_, ?_⟩
    · simp [AABB.corners]
    · exact h plane hplane _ (by simp [AABB.corners])
  · exact not_intersects_of_all_outside b frustum transform

/-- C2 witness: a box inside the concrete cube frustum is visible; a box
fully beyond its `x = 1` plane is culled. -/
theorem culling_inside_visible_outside_culled_witness :
    ((∀ plane ∈ boxFrustum.planes,
        ∀ corner ∈ (AABB.mk ⟨-1/2, -1/2, -1/2⟩ ⟨1/2, 1/2, 1/2⟩).corners,
        0 ≤ plane.signed_distance_to_point
          (Mat4.identity.transform_point3 corner)) ∧
      AABB.intersects_frustum_transformed ⟨⟨-1/2, -1/2, -1/2⟩, ⟨1/2, 1/2, 1/2⟩⟩
        boxFrustum Mat4.identity = true) ∧
    ((∃ plane ∈ boxFrustum.planes,
        ∀ corner ∈ (AABB.mk ⟨2, 2, 2⟩ ⟨3, 3, 3⟩).corners,
        plane.signed_distance_to_point
          (Mat4.identity.transform_point3 corner) < 0) ∧
      AABB.intersects_frustum_transformed ⟨⟨2, 2, 2⟩, ⟨3, 3, 3⟩⟩ boxFrustum
        Mat4.identity = false) := by
  have hin : ∀ plane ∈ boxFrustum.planes,
      ∀ corner ∈ (AABB.mk ⟨-1/2, -1/2, -1/2⟩ ⟨1/2, 1/2, 1/2⟩).corners,
      0 ≤ plane.signed_distance_to_point
        (Mat4.identity.transform_point3 corner) := by
    norm_num [boxFrustum, AABB.corners, Plane.signed_distance_to_point,
      Vec3.dot, Mat4.identity, Mat4.transform_point3, Vec4.smul, Vec4.add,
      Vec4.xyz]
  have hout : ∃ plane ∈ boxFrustum.planes,
      ∀ corner ∈ (AABB.mk ⟨2, 2, 2⟩ ⟨3, 3, 3⟩).corners,
      plane.signed_distance_to_point
        (Mat4.identity.transform_point3 corner) < 0 := by
    refine ⟨⟨⟨-1, 0, 0⟩, 1⟩, by norm_num [boxFrustum], ?_⟩
    norm_num [AABB.corners, Plane.signed_distance_to_point, Vec3.dot,
      Mat4.identity, Mat4.transform_point3, Vec4.smul, Vec4.add, Vec4.xyz]
  exact ⟨⟨hin,
      (culling_inside_visible_outside_culled _ boxFrustum Mat4.identity).1 hin⟩,
    ⟨hout,
      (culling_inside_visible_outside_culled _ boxFrustum Mat4.identity).2
        hout⟩⟩

/-- C7 counterexample: a zero-size box (`min = max`) located beyond the
cube frustum's `x = 1` plane IS culled by
`AABB::intersects_frustum_transformed` — all eight (coincident) corners lie
outside that plane — refuting "degenerate boxes are never culled". -/
theorem degenerate_box_culled_counterexample :
    AABB.intersects_frustum_transformed ⟨⟨5, 0, 0⟩, ⟨5, 0, 0⟩⟩ boxFrustum
      Mat4.identity = false := by
  norm_num [AABB.intersects_frustum_transformed, AABB.corners, boxFrustum,
    Plane.signed_distance_to_point, Vec3.dot, Mat4.identity,
    Mat4.transform_point3, Vec4.smul, Vec4.add, Vec4.xyz]

/-- C7 amended: a zero-size box is subject to the same all-corners test as
any box: it is visible when its point has non-negative signed distance to
every plane, and culled when some plane sees it at negative distance (so it
is not culled merely for being degenerate, but is not unconditionally
visible either). -/
theorem degenerate_box_culling_amended (b : AABB) (frustum : Frustum)
    (transform : Mat4) (hdeg : b.min = b.max) :
    ((∀ plane ∈ frustum.planes,
        0 ≤ plane.signed_distance_to_point (transform.transform_point3 b.min)) →
      b.intersects_frustum_transformed frustum transform = true) ∧
    ((∃ plane ∈ frustum.planes,
        plane.signed_distance_to_point (transform.transform_point3 b.min) < 0) →
      b.intersects_frustum_transformed frustum transform = false) := by
  have hc : ∀ corner ∈ b.corners, corner = b.min := by
    intro c hcor
    simp only [AABB.corners, ← hdeg, List.mem_cons, List.mem_singleton,
      List.not_mem_nil, or_false] at hcor
    rcases hcor with h | h | h | h | h | h | h | h <;> subst h <;> rfl
  constructor
  · intro h
    refine intersects_of_corner_inside b frustum transform ?_
    intro plane hplane
    refine ⟨⟨b.min.x, b.min.y, b.min.z⟩, by simp [AABB.corners], ?_⟩
    exact h plane hplane
  · rintro ⟨plane, hplane, hneg⟩
    refine not_intersects_of_all_outside b frustum transform
      ⟨plane, hplane, ?_⟩
    intro corner hcor
    rw [hc corner hcor]
    exact hneg

/-- C7 amended witness: a point box at the origin (inside the cube frustum)
is visible; a point box at `x = 7` (outside) is culled. -/
theorem degenerate_box_culling_amended_witness :
    ((⟨0, 0, 0⟩ : Vec3) = (⟨0, 0, 0⟩ : Vec3) ∧
      (∀ plane ∈ boxFrustum.planes,
        0 ≤ plane.signed_distance_to_point
          (Mat4.identity.transform_point3 ⟨0, 0, 0⟩)) ∧
      AABB.intersects_frustum_transformed ⟨⟨0, 0, 0⟩, ⟨0, 0, 0⟩⟩ boxFrustum
        Mat4.identity = true) ∧
    ((⟨7, 0, 0⟩ : Vec3) = (⟨7, 0, 0⟩ : Vec3) ∧
      (∃ plane ∈ boxFrustum.planes,
        plane.signed_distance_to_point
          (Mat4.identity.transform_point3 ⟨7, 0, 0⟩) < 0) ∧
      AABB.intersects_frustum_transformed ⟨⟨7, 0, 0⟩, ⟨7, 0, 0⟩⟩ boxFrustum
        Mat4.identity = false) := by
  have hin : ∀ plane ∈ boxFrustum.planes,
      0 ≤ plane.signed_distance_to_point
        (Mat4.identity.transform_point3 ⟨0, 0, 0⟩) := by
    norm_num [boxFrustum, Plane.signed_distance_to_point, Vec3.dot,
      Mat4.identity, Mat4.transform_point3, Vec4.smul, Vec4.add, Vec4.xyz]
  have hout : ∃ plane ∈ boxFrustum.planes,
      plane.signed_distance_to_point
        (Mat4.identity.transform_point3 ⟨7, 0, 0⟩) < 0 := by
    refine ⟨⟨⟨-1, 0, 0⟩, 1⟩, by norm_num [boxFrustum], ?_⟩
    norm_num [Plane.signed_distance_to_point, Vec3.dot, Mat4.identity,
      Mat4.transform_point3, Vec4.smul, Vec4.add, Vec4.xyz]
  exact ⟨⟨rfl, hin,
      (degenerate_box_culling_amended ⟨⟨0, 0, 0⟩, ⟨0, 0, 0⟩⟩ boxFrustum
        Mat4.identity rfl).1 hin⟩,
    ⟨rfl, hout,
      (degenerate_box_culling_amended ⟨⟨7, 0, 0⟩, ⟨7, 0, 0⟩⟩ boxFrustum
        Mat4.identity rfl).2 hout⟩⟩

/-- C8 counterexample: `std::mem::size_of::<Drawable>()` is not 96 bytes. -/
theorem drawable_stride_not_96 : ¬Drawable.sizeBytes = 96 := by decide

/-- C8 amended: the `#[repr(C)]` `Drawable` record has layout
`{world_matrix: 4x4 f32 at offset 0 (64 bytes), mesh_index: u32 at 64,
material_index: u32 at 68, padding: 8 bytes at 72}` — an 80-byte stride
(64 + 4 + 4 + 8), not 96. -/
theorem drawable_layout_80_bytes :
    Drawable.sizeBytes = 80 ∧
      reprCOffsets Drawable.fieldLayouts = [0, 64, 68, 72] := by decide

/-- C5: each frame the drawable list is rebuilt from scratch — the previous
contents never influence the result — and equals one record per primitive
of each enabled object whose model reference resolves, carrying the
object's current world matrix, the primitive's global index and material
index (as `u32`); disabled objects and objects without a model contribute
nothing (`drawablesForObject` is empty for them by definition). -/
theorem gather_rebuilds_drawables_from_scratch (prev : List Drawable)
    (s : Scene) :
    gather_drawables_from_scene prev s =
        s.objects.flatMap (drawablesForObject s) ∧
      gather_drawables_from_scene prev s =
        gather_drawables_from_scene [] s :=
  ⟨gather_eq_flatMap prev s,
    (gather_eq_flatMap prev s).trans (gather_eq_flatMap [] s).symm⟩

/-- C6: `DrawCommandGenerator::dispatch` encodes, for every instance count,
all five buffer clears (draw commands, draw-command count, drawable
visibility, per-mesh visible counts, per-mesh local indices) strictly
before any compute pass, and the three compute passes in the fixed order
culling → draw-command generation → instance gather, all on the one
encoder (one command list). -/
theorem dispatch_clear_and_pass_order (instance_count : ℕ) :
    DrawCommandGenerator.dispatch instance_count =
        (DrawCommandGenerator.dispatch instance_count).filter
            EncoderCommand.isClear ++
          (DrawCommandGenerator.dispatch instance_count).filter
            EncoderCommand.isComputePass ∧
      (DrawCommandGenerator.dispatch instance_count).filter
          EncoderCommand.isClear =
        [.clearBuffer .drawCommands, .clearBuffer .drawCommandsCount,
          .clearBuffer .drawableVisibility,
          .clearBuffer .visibleDrawablesByMesh,
          .clearBuffer .drawableLocalIndices] ∧
      (DrawCommandGenerator.dispatch instance_count).filterMap
          EncoderCommand.passPipeline =
        [.frustumCulling, .generateDraws, .gatherInstanceData] :=
  ⟨rfl, rfl, rfl⟩

/-- C9: an empty frame is handled without failure: writing an empty
drawable list performs no GPU write at all (the buffer is untouched), and
dispatching with instance count 0 encodes zero workgroups for the
per-drawable culling and gather passes (the single-workgroup generation
pass is unaffected). Both operations are total — no crash. -/
theorem empty_frame_no_write_zero_workgroups
    (buffer : DrawableStorageBuffer) (start_index : ℕ) :
    buffer.write_drawables_at_offset [] start_index = .noWrite ∧
      (DrawCommandGenerator.dispatch 0).filter EncoderCommand.isComputePass =
        [.computePass .frustumCulling (0, 1, 1),
          .computePass .generateDraws (1, 1, 1),
          .computePass .gatherInstanceData (0, 1, 1)] :=
  ⟨rfl, rfl⟩

/-- C10: a freshly constructed transform (`Transform::from_translation`,
any translation) has all three flags set and both cached matrices equal to
the identity, so `get_world_matrix` before the first propagation returns
the identity regardless of the translation. -/
theorem fresh_transform_flags_and_identity (translation : Vec3) :
    (Transform.from_translation translation).local_dirty = true ∧
      (Transform.from_translation translation).world_dirty = true ∧
      (Transform.from_translation translation).has_changed_since_last_update =
        true ∧
      (Transform.from_translation translation).local_matrix = Mat4.identity ∧
      (Transform.from_translation translation).world_matrix = Mat4.identity ∧
      (Transform.from_translation translation).get_world_matrix =
        Mat4.identity :=
  ⟨rfl, rfl, rfl, rfl, rfl, rfl⟩

/-- C3: writing the extracted drawables into the fixed-capacity GPU buffer
succeeds (and writes the full, untruncated byte range, in bounds) exactly
when the emitted count fits; a count of exactly `MAX_DRAWABLES` succeeds
and any greater count raises the wgpu validation (capacity) error rather
than truncating or writing past the end. -/
theorem drawable_extraction_capacity (prev : List Drawable) (s : Scene) :
    ((gather_drawables_from_scene prev s).length = MAX_DRAWABLES →
      (DrawableStorageBuffer.create_buffer
            MAX_DRAWABLES).write_drawables_at_offset
          (gather_drawables_from_scene prev s) 0 =
        .wrote 0 (MAX_DRAWABLES * Drawable.sizeBytes)) ∧
    (MAX_DRAWABLES < (gather_drawables_from_scene prev s).length →
      (DrawableStorageBuffer.create_buffer
            MAX_DRAWABLES).write_drawables_at_offset
          (gather_drawables_from_scene prev s) 0 =
        .validationError) ∧
    (∀ offsetBytes lenBytes,
      (DrawableStorageBuffer.create_buffer
            MAX_DRAWABLES).write_drawables_at_offset
          (gather_drawables_from_scene prev s) 0 =
        .wrote offsetBytes lenBytes →
      lenBytes = (gather_drawables_from_scene prev s).length *
          Drawable.sizeBytes ∧
        offsetBytes + lenBytes ≤
          (DrawableStorageBuffer.create_buffer MAX_DRAWABLES).sizeBytes) := by
  have hSB : Drawable.sizeBytes = 80 := Drawable.sizeBytes_eq
  have hM : MAX_DRAWABLES = 32000 := rfl
  set ds := gather_drawables_from_scene prev s with hds
  by_cases hne : ds.isEmpty
  · have hnil : ds = [] := by simpa [List.isEmpty_iff] using hne
    have hlen : ds.length = 0 := by simp [hnil]
    refine ⟨?_, ?_, ?_⟩
    · intro h
      omega
    · intro h
      exact absurd h (by omega)
    · intro offsetBytes lenBytes h
      rw [DrawableStorageBuffer.write_drawables_at_offset, if_pos hne] at h
      exact absurd h (by simp)
  · have hfalse : ds.isEmpty = false := by simpa using hne
    have hwrite : (DrawableStorageBuffer.create_buffer
          MAX_DRAWABLES).write_drawables_at_offset ds 0 =
        if 0 * Drawable.sizeBytes + ds.length * Drawable.sizeBytes ≤
            Drawable.sizeBytes * MAX_DRAWABLES then
          .wrote (0 * Drawable.sizeBytes) (ds.length * Drawable.sizeBytes)
        else .validationError := by
      rw [DrawableStorageBuffer.write_drawables_at_offset,
        if_neg (by simp [hfalse]), queueWriteBuffer]
      rfl
    refine ⟨?_, ?_, ?_⟩
    · intro h
      rw [hwrite, if_pos]
      · rw [h, Nat.zero_mul]
      · rw [h, hSB, hM]
    · intro h
      rw [hwrite, if_neg]
      rw [hSB]
      omega
    · intro offsetBytes lenBytes h
      rw [hwrite] at h
      by_cases hle : 0 * Drawable.sizeBytes + ds.length * Drawable.sizeBytes ≤
          Drawable.sizeBytes * MAX_DRAWABLES
      · rw [if_pos hle] at h
        cases h
        refine ⟨rfl, ?_⟩
        simpa [DrawableStorageBuffer.create_buffer] using hle
      · rw [if_neg hle] at h
        exact absurd h (by simp)

/-- C3 witness: a scene emitting exactly `MAX_DRAWABLES` drawables writes
successfully; one more drawable raises the validation error. -/
theorem drawable_extraction_capacity_witness :
    ((gather_drawables_from_scene []
          (capacityScene MAX_DRAWABLES)).length = MAX_DRAWABLES ∧
      (DrawableStorageBuffer.create_buffer
            MAX_DRAWABLES).write_drawables_at_offset
          (gather_drawables_from_scene [] (capacityScene MAX_DRAWABLES)) 0 =
        .wrote 0 (MAX_DRAWABLES * Drawable.sizeBytes)) ∧
    (MAX_DRAWABLES <
        (gather_drawables_from_scene []
          (capacityScene (MAX_DRAWABLES + 1))).length ∧
      (DrawableStorageBuffer.create_buffer
            MAX_DRAWABLES).write_drawables_at_offset
          (gather_drawables_from_scene [] (capacityScene (MAX_DRAWABLES + 1)))
          0 =
        .validationError) :=
  ⟨⟨capacityScene_gather_length MAX_DRAWABLES,
      (drawable_extraction_capacity [] (capacityScene MAX_DRAWABLES)).1
        (capacityScene_gather_length MAX_DRAWABLES)⟩,
    ⟨by rw [capacityScene_gather_length]; omega,
      (drawable_extraction_capacity [] (capacityScene (MAX_DRAWABLES + 1))).2.1
        (by rw [capacityScene_gather_length]; omega)⟩⟩

/-- C4: every Scene-level mutation (the four local-transform setters and
parent reassignment) leaves the mutated object and all its transitive
descendants (in the relinked scene the invalidation actually walks) with
`world_dirty = true`, and every other object with its previous
`world_dirty` value — no over-invalidation. The rank certifies the
hierarchy acyclic, which is also what makes the Rust recursion terminate. -/
theorem scene_mutation_invalidates_subtree_exactly (m : SceneMutation)
    (s : Scene) (id : ℕ) (rank : ℕ → ℕ)
    (hrank : (m.applyPre s id).RankOk rank)
    (hbound : (m.applyPre s id).RankBounded rank) :
    ∀ j o0 o1, s.objects[j]? = some o0 →
      (m.applyMut s id).objects[j]? = some o1 →
      ((m.applyPre s id).Reach id j → o1.transform.world_dirty = true) ∧
      (¬(m.applyPre s id).Reach id j →
        o1.transform.world_dirty = o0.transform.world_dirty) := by
  intro j o0 o1 h0 h1
  set pre := m.applyPre s id with hpre
  rw [applyMut_eq_invalidate, ← hpre, Scene.invalidate_object_hierarchy] at h1
  have hfuel : rank id < pre.objects.length ∨ pre.objects[id]? = none := by
    by_cases hid : id < pre.objects.length
    · exact Or.inl (hbound id hid)
    · exact Or.inr (List.getElem?_eq_none (by omega))
  have hspec := invalidate_fueled_spec rank pre.objects.length pre id hrank
    hfuel j
  constructor
  · intro hr
    rw [hspec.1 hr] at h1
    cases hpj : pre.objects[j]? with
    | none =>
      rw [hpj] at h1
      exact absurd h1 (by simp)
    | some po =>
      rw [hpj] at h1
      have ho1 : o1 = po.dirtyWorld := by simpa using h1.symm
      rw [ho1]
      rfl
  · intro hnr
    rw [hspec.2 hnr] at h1
    have hj : j ≠ id := fun he => hnr (he ▸ Relation.ReflTransGen.refl)
    have hw := (applyPre_frame m s id).2 j hj
    rw [worldDirtyAt, worldDirtyAt, h1, h0] at hw
    simpa using hw

/-- C4 witness: translating the root of the concrete two-level hierarchy
dirties it and its child and leaves the unrelated clean object clean. -/
theorem scene_mutation_invalidates_subtree_exactly_witness :
    ((SceneMutation.translationOf ⟨5, 5, 5⟩).applyPre mutationWitnessScene
        0).RankOk mutationWitnessRank ∧
    ((SceneMutation.translationOf ⟨5, 5, 5⟩).applyPre mutationWitnessScene
        0).RankBounded mutationWitnessRank ∧
    (∀ j o0 o1, mutationWitnessScene.objects[j]? = some o0 →
      ((SceneMutation.translationOf ⟨5, 5, 5⟩).applyMut mutationWitnessScene
          0).objects[j]? = some o1 →
      (((SceneMutation.translationOf ⟨5, 5, 5⟩).applyPre mutationWitnessScene
          0).Reach 0 j → o1.transform.world_dirty = true) ∧
      (¬((SceneMutation.translationOf ⟨5, 5, 5⟩).applyPre mutationWitnessScene
          0).Reach 0 j →
        o1.transform.world_dirty = o0.transform.world_dirty)) :=
  ⟨by decide, by decide,
    scene_mutation_invalidates_subtree_exactly
      (SceneMutation.translationOf ⟨5, 5, 5⟩) mutationWitnessScene 0
      mutationWitnessRank (by decide) (by decide)⟩

/-- C1: after the propagation pass (`late_update` / `update_transforms`),
on a well-formed scene in the coherence state the Scene API maintains
(dirtiness introduced only through `invalidate_object_hierarchy`, caches
coherent when clean), every object's world matrix equals its parent's
propagated world matrix times its own local matrix, and a root's world
matrix equals its local matrix. -/
theorem scene_propagation_world_matrices (s : Scene) (rank : ℕ → ℕ)
    (hrank : s.RankOk rank) (hbound : s.RankBounded rank)
    (hpcl : s.ParentChildLinked) (hcpl : s.ChildParentLinked)
    (hcoh : s.Coherent) :
    ∀ (i : ℕ) (o : Object3D), (s.late_update).objects[i]? = some o →
      (o.parent_id = none →
        o.transform.world_matrix = o.transform.local_matrix) ∧
      ∀ (p : ℕ) (po : Object3D), o.parent_id = some p →
        (s.late_update).objects[p]? = some po →
        o.transform.world_matrix =
          po.transform.world_matrix.mul o.transform.local_matrix := by
  obtain ⟨hcohF, hfF, hcleanF⟩ := update_transforms_spec rank s hrank hbound
    hpcl hcpl hcoh
  obtain ⟨hlocF, hldwF, hddF, hwcF⟩ := hcohF
  intro i o hio
  have hio2 : (s.update_transforms).objects[i]? = some o := hio
  have hilt : i < (s.update_transforms).objects.length := getElem?_some_lt hio2
  have hilt_s : i < s.objects.length := by
    rw [← hfF.2.1]
    exact hilt
  obtain ⟨r, hr1, hr2, hr3⟩ := root_covers s rank hrank hbound hpcl i hilt_s
  have hclean : o.transform.world_dirty = false :=
    hcleanF r hr2 hr1 i hr3 o hio2
  have hld : o.transform.local_dirty = false := by
    have hx := hldwF i hilt
    rw [hio2] at hx
    by_cases hl : o.transform.local_dirty = true
    · exact absurd (hx hl) (by simp [hclean])
    · simpa using hl
  have hlm : o.transform.local_matrix = o.transform.trsMatrix := by
    have hx := hlocF i hilt
    rw [hio2] at hx
    exact hx hld
  have hx := hwcF i hilt
  rw [hio2] at hx
  have hx2 := hx hclean
  constructor
  · intro hpn
    rw [hpn] at hx2
    have hx3 : o.transform.world_matrix = o.transform.trsMatrix := hx2
    rw [hx3, hlm]
  · intro p po hps hpo
    rw [hps] at hx2
    have hx3 : OptHolds (s.update_transforms).objects[p]?
        (fun q => o.transform.world_matrix =
          q.transform.world_matrix.mul o.transform.trsMatrix) := hx2
    have hpo2 : (s.update_transforms).objects[p]? = some po := hpo
    rw [hpo2] at hx3
    have hx4 : o.transform.world_matrix =
        po.transform.world_matrix.mul o.transform.trsMatrix := hx3
    rw [hx4, hlm]

/-- C1 witness: the concrete dirty two-level hierarchy propagates into
parent-times-local world matrices. -/
theorem scene_propagation_world_matrices_witness :
    (propagationWitnessScene.RankOk propagationWitnessRank ∧
      propagationWitnessScene.RankBounded propagationWitnessRank ∧
      propagationWitnessScene.ParentChildLinked ∧
      propagationWitnessScene.ChildParentLinked ∧
      propagationWitnessScene.Coherent) ∧
    ∀ (i : ℕ) (o : Object3D),
      (propagationWitnessScene.late_update).objects[i]? = some o →
      (o.parent_id = none →
        o.transform.world_matrix = o.transform.local_matrix) ∧
      ∀ (p : ℕ) (po : Object3D), o.parent_id = some p →
        (propagationWitnessScene.late_update).objects[p]? = some po →
        o.transform.world_matrix =
          po.transform.world_matrix.mul o.transform.local_matrix :=
  ⟨⟨by decide, by decide, by decide, by decide, by decide⟩,
    scene_propagation_world_matrices propagationWitnessScene
      propagationWitnessRank (by decide) (by decide) (by decide) (by decide)
      (by decide)⟩

end Demogine
